import Mathlib

/-!
Kiali: host, route, subset and circuit-breaker matching over Istio objects

A shallow embedding of `kubernetes/istio_details_service.go` and
`graph/appender/util.go`.

* Go's `interface{}` documents (decoded JSON) are the inductive `Value`.
* Go's `map[string]interface{}` is an association list `Obj`, read with `mapGet`
  (first binding of a key); a map that may be `nil` is an `Option Obj`, and reading a
  `nil` map finds nothing, as in Go.
* Go's `map[string]struct{}` is the list of its keys.
* A run-time panic (an unchecked type assertion that fails) is the result `none`.
* The process configuration read through `config.Get()` is the explicit argument `cfg`.
* Go's `strings.ToLower` is the argument `lower`, and the text that `fmt.Sprintf` gives
  for a value that is not a string is the argument `fmtV`.
* The rules and entries of a list are non-nil objects; an object that a function
  compares with `nil` is an `Option IstioObject`.
-/

namespace Kiali

/-- A Go `interface{}` holding decoded JSON: `null` is the nil interface. The content of
a number is never read by the functions below; it is kept as an integer. -/
inductive Value where
  | null : Value
  | bool : Bool → Value
  | num : Int → Value
  | str : String → Value
  | arr : List Value → Value
  | obj : List (String × Value) → Value

/-- A non-nil Go `map[string]interface{}`. -/
abbrev Obj := List (String × Value)

/-- A Go `map[string]interface{}` that may be `nil`. -/
abbrev Spec := Option Obj

/-- The two-valued map read `v, ok := m[k]` on a non-nil map. -/
def mapGet : Obj → String → Option Value
  | [], _ => none
  | (k, v) :: rest, key => if k = key then some v else mapGet rest key

/-- The two-valued map read `v, ok := spec[k]`; a nil map has no key. -/
def specGet (spec : Spec) (key : String) : Option Value :=
  match spec with
  | none => none
  | some m => mapGet m key

/-- The comparison `v == s` of an `interface{}` with a `string`: true exactly when the
dynamic type is `string` and the contents agree. -/
def valueEqString (v : Value) (s : String) : Bool :=
  match v with
  | .str t => decide (t = s)
  | _ => false

/-- The part of `config.Config` that the functions read. -/
structure Config where
  /-- The field `IstioLabels.VersionLabelName`. -/
  versionLabelName : String
  /-- The field `ExternalServices.Istio.IstioIdentityDomain`. -/
  istioIdentityDomain : String

/-- The part of `meta_v1.ObjectMeta` that the functions read. -/
structure ObjectMeta where
  Name : String
  Namespace : String

/-- A non-nil `IstioObject`: `GetObjectMeta()` and `GetSpec()`. -/
structure IstioObject where
  objectMeta : ObjectMeta
  spec : Spec

/-- The function `FilterByHost` (istio_details_service.go, lines 402-425). -/
def FilterByHost (cfg : Config) (host serviceName ns : String) : Bool :=
  if host = serviceName then true
  else if host = serviceName ++ "." ++ ns then true
  else if host = serviceName ++ "." ++ ns ++ "." ++ "svc" then true
  else if host = serviceName ++ "." ++ ns ++ "." ++ cfg.istioIdentityDomain then true
  else false

/-- The function `checkTrafficPolicy` (lines 355-368): the policy is a non-nil object holding a
`connectionPool` or an `outlierDetection` key. -/
def checkTrafficPolicy (trafficPolicy : Value) : Bool :=
  match trafficPolicy with
  | .null => false
  | .obj dTrafficPolicy =>
    if (mapGet dTrafficPolicy "connectionPool").isSome then true
    else if (mapGet dTrafficPolicy "outlierDetection").isSome then true
    else false
  | _ => false

/-- The read `tp, ok := m["trafficPolicy"]; ok && checkTrafficPolicy(tp)` (lines 326, 336). -/
def hasTrafficPolicy (m : Obj) : Bool :=
  match mapGet m "trafficPolicy" with
  | some trafficPolicy => checkTrafficPolicy trafficPolicy
  | none => false

/-- The read `labels, ok := m["labels"]`, its assertion to an object, and the test
`versionValue, ok := dLabels[VersionLabelName]; ok && versionValue == version`
(lines 298-300, 337-339). -/
def labelsMatchVersion (cfg : Config) (version : String) (m : Obj) : Bool :=
  match mapGet m "labels" with
  | some (.obj dLabels) =>
    match mapGet dLabels cfg.versionLabelName with
    | some versionValue => valueEqString versionValue version
    | none => false
  | _ => false

/-- The body of the loop over subsets in `CheckDestinationRuleCircuitBreaker`
(lines 335-345): true when the loop returns true at this subset. -/
def subsetCircuitBreaker (cfg : Config) (version : String) (subset : Value) : Bool :=
  match subset with
  | .obj innerSubset =>
    if hasTrafficPolicy innerSubset then labelsMatchVersion cfg version innerSubset
    else false
  | _ => false

/-- The function `CheckDestinationRuleCircuitBreaker` (lines 319-352). The loop over the subsets
returns true at the first subset that passes and the function returns false after
the last one, which is `List.any`. -/
def CheckDestinationRuleCircuitBreaker (cfg : Config) (destinationRule : Option IstioObject)
    (ns serviceName version : String) : Bool :=
  match destinationRule with
  | none => false
  | some dr =>
    match dr.spec with
    | none => false
    | some spec =>
      match mapGet spec "host" with
      | some (.str host) =>
        if FilterByHost cfg host serviceName ns then
          if hasTrafficPolicy spec then true
          else if version = "" then false
          else
            match mapGet spec "subsets" with
            | some (.arr dSubsets) => dSubsets.any (subsetCircuitBreaker cfg version)
            | _ => false
        else false
      | _ => false

/-- The loop over the subsets of one rule in `GetDestinationRulesSubsets`
(lines 295-306), threading `foundSubsets`. The unchecked assertion
`subsetName.(string)` of line 301 panics (`none`) when the name is absent, nil or not
a string. -/
def subsetsLoop (cfg : Config) (version : String) :
    List Value → List String → Option (List String)
  | [], foundSubsets => some foundSubsets
  | subset :: rest, foundSubsets =>
    match subset with
    | .obj innerSubset =>
      if labelsMatchVersion cfg version innerSubset then
        match mapGet innerSubset "name" with
        | some (.str subsetName) => subsetsLoop cfg version rest (foundSubsets ++ [subsetName])
        | _ => none
      else subsetsLoop cfg version rest foundSubsets
    | _ => subsetsLoop cfg version rest foundSubsets

/-- The loop over the destination rules in `GetDestinationRulesSubsets`
(lines 290-311), threading `foundSubsets`. -/
def rulesLoop (cfg : Config) (serviceName version : String) :
    List IstioObject → List String → Option (List String)
  | [], foundSubsets => some foundSubsets
  | destinationRule :: rest, foundSubsets =>
    match specGet destinationRule.spec "host" with
    | some (.str host) =>
      if FilterByHost cfg host serviceName destinationRule.objectMeta.Namespace then
        match specGet destinationRule.spec "subsets" with
        | some (.arr dSubsets) =>
          match subsetsLoop cfg version dSubsets foundSubsets with
          | some found => rulesLoop cfg serviceName version rest found
          | none => none
        | _ => rulesLoop cfg serviceName version rest foundSubsets
      else rulesLoop cfg serviceName version rest foundSubsets
    | _ => rulesLoop cfg serviceName version rest foundSubsets

/-- The function `GetDestinationRulesSubsets` (lines 287-313); `none` is a panic. The rules of the
list are non-nil objects. -/
def GetDestinationRulesSubsets (cfg : Config) (destinationRules : List IstioObject)
    (serviceName version : String) : Option (List String) :=
  rulesLoop cfg serviceName version destinationRules []

/-- The function `FilterByDestination` (lines 370-400). -/
def FilterByDestination (cfg : Config) (spec : Spec) (ns serviceName version : String) : Bool :=
  match spec with
  | none => false
  | some m =>
    match mapGet m "destination" with
    | some destination =>
      match destination with
      | .obj dest =>
        if (match mapGet dest "namespace" with
            | some dNamespace => !valueEqString dNamespace ns
            | none => false) then false
        else if (match mapGet dest "name" with
            | some dName => !valueEqString dName serviceName
            | none => false) then false
        else
          match mapGet dest "labels" with
          | some dLabels =>
            if version ≠ "" then
              match dLabels with
              | .obj labels =>
                match mapGet labels cfg.versionLabelName with
                | some versionValue => if valueEqString versionValue version then true else false
                | none => false
              | _ => false
            else true
          | none => true
      | _ => false
    | none => false

/-- The body of the innermost loop of `FilterByRoute` (lines 439-457): true when the
loop returns true at this destination. `lower` is Go's `strings.ToLower`. -/
def destinationRouted (lower : String → String) (cfg : Config) (protocol service ns : String)
    (serviceEntries : Option (List String)) (destination : Value) : Bool :=
  match destination with
  | .obj mDestination =>
    match mapGet mDestination "destination" with
    | some (.obj mDestinationW) =>
      match mapGet mDestinationW "host" with
      | some (.str sHost) =>
        if FilterByHost cfg sHost service ns then true
        else
          match serviceEntries with
          | some entries => decide (lower protocol ++ sHost ∈ entries)
          | none => false
      | _ => false
    | _ => false
  | _ => false

/-- The body of the loop over the routes of one protocol in `FilterByRoute`
(lines 435-461). -/
def httpRouteRouted (lower : String → String) (cfg : Config) (protocol service ns : String)
    (serviceEntries : Option (List String)) (httpRoute : Value) : Bool :=
  match httpRoute with
  | .obj mHttpRoute =>
    match mapGet mHttpRoute "route" with
    | some (.arr aDestinationWeight) =>
      aDestinationWeight.any (destinationRouted lower cfg protocol service ns serviceEntries)
    | _ => false
  | _ => false

/-- The function `FilterByRoute` (lines 427-467). Each loop returns true at the first element that
passes, and the function returns false after the last, which is `List.any`. The map
of service-entry hostnames is the list of its keys, `none` when nil. -/
def FilterByRoute (lower : String → String) (cfg : Config) (spec : Spec)
    (protocols : List String) (service ns : String)
    (serviceEntries : Option (List String)) : Bool :=
  if protocols.length = 0 then false
  else
    protocols.any fun protocol =>
      match specGet spec protocol with
      | some (.arr aHttp) =>
        aHttp.any (httpRouteRouted lower cfg protocol service ns serviceEntries)
      | _ => false

/-- The body of the innermost loop of `FilterByRouteAndSubset` (lines 481-502). -/
def destinationSubsetRouted (cfg : Config) (service ns : String) (subsets : List String)
    (destination : Value) : Bool :=
  match destination with
  | .obj mDestination =>
    match mapGet mDestination "destination" with
    | some (.obj mDestinationW) =>
      match mapGet mDestinationW "host" with
      | some (.str sHost) =>
        if FilterByHost cfg sHost service ns then
          match mapGet mDestinationW "subset" with
          | some (.str sSubset) => subsets.any fun checkSubset => decide (sSubset = checkSubset)
          | _ => false
        else false
      | _ => false
    | _ => false
  | _ => false

/-- The body of the loop over the routes of one protocol in `FilterByRouteAndSubset`
(lines 477-506). -/
def httpRouteSubsetRouted (cfg : Config) (service ns : String) (subsets : List String)
    (httpRoute : Value) : Bool :=
  match httpRoute with
  | .obj mHttpRoute =>
    match mapGet mHttpRoute "route" with
    | some (.arr aDestinationWeight) =>
      aDestinationWeight.any (destinationSubsetRouted cfg service ns subsets)
    | _ => false
  | _ => false

/-- The function `FilterByRouteAndSubset` (lines 469-512). -/
def FilterByRouteAndSubset (cfg : Config) (spec : Spec) (protocols : List String)
    (service ns : String) (subsets : List String) : Bool :=
  if protocols.length = 0 then false
  else
    protocols.any fun protocol =>
      match specGet spec protocol with
      | some (.arr aHttp) => aHttp.any (httpRouteSubsetRouted cfg service ns subsets)
      | _ => false

/-- The function `CheckVirtualServiceSubset` (lines 275-284); a nil slice of subsets is `none`. -/
def CheckVirtualServiceSubset (cfg : Config) (virtualService : Option IstioObject)
    (ns serviceName : String) (subsets : Option (List String)) : Bool :=
  match virtualService, subsets with
  | some vs, some names =>
    match vs.spec with
    | none => false
    | some spec =>
      if 0 < names.length ∧
          FilterByRouteAndSubset cfg (some spec) ["http", "tcp"] serviceName ns names = true
      then true
      else false
  | _, _ => false

/-- The loop over the hosts in `CheckVirtualService` (lines 263-267); the unchecked
assertion `host.(string)` panics (`none`) on an entry that is not a string. -/
def hostsLoop (cfg : Config) (ns serviceName : String) : List Value → Option Bool
  | [] => some false
  | host :: rest =>
    match host with
    | .str h => if FilterByHost cfg h serviceName ns then some true
                else hostsLoop cfg ns serviceName rest
    | _ => none

/-- The function `CheckVirtualService` (lines 258-270); `none` is a panic: the unchecked assertion
`hosts.([]interface{})` panics when `hosts` is present and is not a list. -/
def CheckVirtualService (cfg : Config) (virtualService : Option IstioObject)
    (ns serviceName : String) : Option Bool :=
  match virtualService with
  | none => some false
  | some vs =>
    match vs.spec with
    | none => some false
    | some spec =>
      if serviceName = "" then some false
      else
        match mapGet spec "hosts" with
        | some (.arr hosts) => hostsLoop cfg ns serviceName hosts
        | some _ => none
        | none => some false

/-- The function `mapPortToVirtualServiceProtocol` (lines 544-563): the cases of the switch in
order, a `fallthrough` case taking the result of the next one. -/
def mapPortToVirtualServiceProtocol (proto : String) : String :=
  if proto = "HTTP" then "http"
  else if proto = "HTTP2" then "http"
  else if proto = "GRPC" then "http"
  else if proto = "HTTPS" then "tls"
  else if proto = "TLS" then "tls"
  else "tcp"

/-- The verb `%v` of `fmt.Sprintf` on an `interface{}`: a string prints as itself; the
text of any other value is left to `fmtV`. -/
def sprintV (fmtV : Value → String) (v : Value) : String :=
  match v with
  | .str s => s
  | other => fmtV other

/-- The assignment `m[k] = empty` on a `map[string]struct{}` kept as the list of its
keys. -/
def setInsert (m : List String) (k : String) : List String :=
  if k ∈ m then m else m ++ [k]

/-- The body of the loop over the service entries in `ServiceEntryHostnames`
(lines 521-538): the map after this entry. -/
def serviceEntryStep (fmtV : Value → String) (hostnames : List String) (v : IstioObject) :
    List String :=
  match specGet v.spec "hosts" with
  | some (.arr hosts) =>
    match specGet v.spec "ports" with
    | some (.obj ports) =>
      match mapGet ports "protocol" with
      | some (.str proto) =>
        hosts.foldl
          (fun m h => setInsert m (mapPortToVirtualServiceProtocol proto ++ sprintV fmtV h))
          hostnames
      | _ => hostnames
    | _ => hostnames
  | _ => hostnames

/-- The function `ServiceEntryHostnames` (lines 516-541): the keys of the returned map. -/
def ServiceEntryHostnames (fmtV : Value → String) (serviceEntries : List IstioObject) :
    List String :=
  serviceEntries.foldl (serviceEntryStep fmtV) []

/-- The function `GatewayNames` (lines 566-574): the keys of the returned map. -/
def GatewayNames (gateways : List IstioObject) : List String :=
  gateways.foldl (fun names v => setInsert names v.objectMeta.Name) []

/-- The function `ValidateVirtualServiceGateways` (lines 577-591). The loop returns false at the
first gateway that fails and the function returns true after the last, which is
`List.all`. The map of gateway names is the list of its keys. -/
def ValidateVirtualServiceGateways (spec : Spec) (gatewayNames : List String) : Bool :=
  match specGet spec "gateways" with
  | some (.arr gateways) =>
    gateways.all fun g =>
      match g with
      | .str gate => if gate ∉ gatewayNames ∧ gate ≠ "mesh" then false else true
      | _ => true
  | _ => true

/-- A Go `error`, by its message. -/
abbrev Error := String

/-- What a list request to the Istio API returns, by its dynamic type. -/
inductive RuntimeObject where
  | virtualServiceList : List IstioObject → RuntimeObject
  | destinationRuleList : List IstioObject → RuntimeObject
  | other : RuntimeObject

/-- The two list requests of `IstioClient` that `GetIstioDetails` issues, each by its
result `(result, err)`: an error, or else the object returned. -/
structure IstioClient where
  /-- The request `Get().Namespace(ns).Resource(virtualServices).Do().Get()`. -/
  listVirtualServices : String → Except Error RuntimeObject
  /-- The request `Get().Namespace(ns).Resource(destinationRules).Do().Get()`. -/
  listDestinationRules : String → Except Error RuntimeObject

/-- The loop of `GetVirtualServices` (lines 62-71), threading `virtualServices`; a copy
of an object is the object. -/
def virtualServicesLoop (lower : String → String) (cfg : Config) (ns serviceName : String) :
    List IstioObject → List IstioObject → List IstioObject
  | [], virtualServices => virtualServices
  | virtualService :: rest, virtualServices =>
    let appendVirtualService : Bool := decide (serviceName = "")
    let appendVirtualService : Bool :=
      if (!appendVirtualService &&
          FilterByRoute lower cfg virtualService.spec ["http", "tcp"] serviceName ns none) = true
      then true
      else appendVirtualService
    if appendVirtualService = true then
      virtualServicesLoop lower cfg ns serviceName rest (virtualServices ++ [virtualService])
    else virtualServicesLoop lower cfg ns serviceName rest virtualServices

/-- The function `GetVirtualServices` (lines 51-73), returning the Go pair
`(items, err)`. -/
def GetVirtualServices (lower : String → String) (cfg : Config) (client : IstioClient)
    (ns serviceName : String) : List IstioObject × Option Error :=
  match client.listVirtualServices ns with
  | .error err => ([], some err)
  | .ok (.virtualServiceList items) =>
    (virtualServicesLoop lower cfg ns serviceName items [], none)
  | .ok _ => ([], some (ns ++ "/" ++ serviceName ++ " doesn't return a VirtualService list"))

/-- The loop of `GetDestinationRules` (lines 166-176), threading `destinationRules`. -/
def destinationRulesLoop (cfg : Config) (ns serviceName : String) :
    List IstioObject → List IstioObject → List IstioObject
  | [], destinationRules => destinationRules
  | destinationRule :: rest, destinationRules =>
    let appendDestinationRule : Bool := decide (serviceName = "")
    let appendDestinationRule : Bool :=
      match specGet destinationRule.spec "host" with
      | some (.str dHost) =>
        if FilterByHost cfg dHost serviceName ns = true then true else appendDestinationRule
      | _ => appendDestinationRule
    if appendDestinationRule = true then
      destinationRulesLoop cfg ns serviceName rest (destinationRules ++ [destinationRule])
    else destinationRulesLoop cfg ns serviceName rest destinationRules

/-- The function `GetDestinationRules` (lines 155-178), returning the Go pair
`(items, err)`. -/
def GetDestinationRules (cfg : Config) (client : IstioClient) (ns serviceName : String) :
    List IstioObject × Option Error :=
  match client.listDestinationRules ns with
  | .error err => ([], some err)
  | .ok (.destinationRuleList items) =>
    (destinationRulesLoop cfg ns serviceName items [], none)
  | .ok _ => ([], some (ns ++ "/" ++ serviceName ++ " doesn't return a DestinationRule list"))

/-- The struct `IstioDetails`. -/
structure IstioDetails where
  VirtualServices : List IstioObject
  DestinationRules : List IstioObject

/-- The function `GetIstioDetails` (lines 15-46), returning the Go pair `(details, err)`. The two
fetches run to completion before the results are read (`wg.Wait()`), so each is
taken by its result. -/
def GetIstioDetails (lower : String → String) (cfg : Config) (client : IstioClient)
    (ns serviceName : String) : Option IstioDetails × Option Error :=
  let vs := GetVirtualServices lower cfg client ns serviceName
  let dr := GetDestinationRules cfg client ns serviceName
  match vs.2 with
  | some virtualServicesErr => (none, some virtualServicesErr)
  | none =>
    match dr.2 with
    | some destinationRulesErr => (none, some destinationRulesErr)
    | none => (some (IstioDetails.mk vs.1 dr.1), none)

/-- A value of Prometheus' `model.Value`, by its `Type()`; `σ` is `model.Sample`. -/
inductive ModelValue (σ : Type) where
  | vector : List σ → ModelValue σ
  | scalar : ModelValue σ
  | matrix : ModelValue σ
  | string : ModelValue σ

/-- The call `api.Query(ctx, query, ts)` of Prometheus' `v1.API`: from the state of the
backend before the call, the state after it and the result `(value, err)`; `τ` is
`time.Time` and `β` is the state of the backend. -/
structure PromAPI (σ τ β : Type) where
  Query : β → String → τ → β × (Option (ModelValue σ) × Option Error)

/-- The function `checkError` (util.go, lines 17-21): panics (`none`) on a non-nil error. -/
def checkError (err : Option Error) : Option Unit :=
  match err with
  | none => some ()
  | some _ => none

/-- The text of a `model.ValueType`, as `%v` prints it. -/
def ModelValue.typeName {σ : Type} : ModelValue σ → String
  | .vector _ => "vector"
  | .scalar => "scalar"
  | .matrix => "matrix"
  | .string => "string"

/-- The function `promQuery` (util.go, lines 23-43), run on a backend in the state
`backend`: the state of the backend after the call, and the vector returned, `none`
when the function panics. The call `value.Type()` on a nil value panics; the final
`return nil` gives the empty vector. -/
def promQuery {σ τ β : Type} (query : String) (queryTime : τ) (api : PromAPI σ τ β)
    (backend : β) : β × Option (List σ) :=
  let wrapped := "round(" ++ query ++ ",0.001)"
  let res := api.Query backend wrapped queryTime
  (res.1,
    match checkError res.2.2 with
    | none => none
    | some _ =>
      match res.2.1 with
      | none => none
      | some (.vector v) => some v
      | some t =>
        match checkError (some ("No handling for type " ++ t.typeName ++ "!\n")) with
        | none => none
        | some _ => some [])

/-- A backend that records what it is asked: its state is the list of the queries
received so far, each with its time, and it answers a query by `answer`. -/
def recordingAPI {σ τ : Type} (answer : String → τ → Option (ModelValue σ) × Option Error) :
    PromAPI σ τ (List (String × τ)) :=
  PromAPI.mk fun received query ts => (received ++ [(query, ts)], answer query ts)

/-- The spec's wording of subset selection (section 4.3), first condition: the rule's
declared host matches the service name, using the rule's own namespace. -/
def specRuleHostMatches (cfg : Config) (serviceName : String) (rule : IstioObject) : Bool :=
  match specGet rule.spec "host" with
  | some (.str host) => FilterByHost cfg host serviceName rule.objectMeta.Namespace
  | _ => false

/-- The spec's wording of subset selection: the subset list of a rule, in document
order; empty when the rule declares no list. -/
def specRuleSubsets (rule : IstioObject) : List Value :=
  match specGet rule.spec "subsets" with
  | some (.arr subsets) => subsets
  | _ => []

/-- The spec's wording of subset selection: the subset's label map contains the version
label key with a value equal to the version. -/
def specSubsetHasVersion (cfg : Config) (version : String) (subset : Value) : Bool :=
  match subset with
  | .obj fields =>
    match mapGet fields "labels" with
    | some (.obj labels) =>
      match mapGet labels cfg.versionLabelName with
      | some (.str value) => decide (value = version)
      | _ => false
    | _ => false
  | _ => false

/-- The spec's wording of subset selection: the subsets that qualify, rules in list
order and subsets in order within a rule, repeated ones kept. -/
def specVersionSubsets (cfg : Config) (destinationRules : List IstioObject)
    (serviceName version : String) : List Value :=
  destinationRules.flatMap fun rule =>
    if specRuleHostMatches cfg serviceName rule then
      (specRuleSubsets rule).filter (specSubsetHasVersion cfg version)
    else []

/-- The declared name of a subset, when it is a string. -/
def specSubsetName (subset : Value) : Option String :=
  match subset with
  | .obj fields =>
    match mapGet fields "name" with
    | some (.str name) => some name
    | _ => none
  | _ => none

/-- A service entry for `api.example.com` on a GRPC port. -/
def sampleServiceEntry : IstioObject :=
  IstioObject.mk (ObjectMeta.mk "external-api" "bookinfo")
    (some [("hosts", .arr [.str "api.example.com"]),
      ("ports", .obj [("number", .num 443), ("protocol", .str "GRPC")])])

/-- A destination rule for `reviews` with the subsets `v1` and `v2`, the version label
being `version`. -/
def sampleDestinationRule : IstioObject :=
  IstioObject.mk (ObjectMeta.mk "reviews" "bookinfo")
    (some [("host", .str "reviews"),
      ("subsets", .arr
        [.obj [("name", .str "v1"), ("labels", .obj [("version", .str "v1")])],
         .obj [("name", .str "v2"), ("labels", .obj [("version", .str "v2")]),
           ("trafficPolicy", .obj [("outlierDetection", .obj [])])]])])

/-- A destination rule for `reviews` whose only subset carries the label `version=v1`
and declares no name. -/
def unnamedSubsetRule : IstioObject :=
  IstioObject.mk (ObjectMeta.mk "reviews" "bookinfo")
    (some [("host", .str "reviews"),
      ("subsets", .arr [.obj [("labels", .obj [("version", .str "v1")])]])])

/-- The configuration of the examples: version label `version`, identity domain
`svc.cluster.local`. -/
def sampleConfig : Config := Config.mk "version" "svc.cluster.local"

/-- A service entry on a GRPC port whose host list holds the number 42. -/
def numericHostEntry : IstioObject :=
  IstioObject.mk (ObjectMeta.mk "numeric-host" "bookinfo")
    (some [("hosts", .arr [.num 42]), ("ports", .obj [("protocol", .str "GRPC")])])

/-- A service entry on a TLS port whose host list holds a null. -/
def nullHostEntry : IstioObject :=
  IstioObject.mk (ObjectMeta.mk "null-host" "bookinfo")
    (some [("hosts", .arr [.null]), ("ports", .obj [("protocol", .str "TLS")])])

/-- A service entry that declares hosts and no port. -/
def portlessEntry : IstioObject :=
  IstioObject.mk (ObjectMeta.mk "portless" "bookinfo")
    (some [("hosts", .arr [.str "db.example.com"])])

/-- A destination rule for `reviews` whose policies hold only a `loadBalancer` key, at
the service level and in its subset. -/
def loadBalancerRule : IstioObject :=
  IstioObject.mk (ObjectMeta.mk "reviews" "bookinfo")
    (some [("host", .str "reviews"),
      ("trafficPolicy", .obj [("loadBalancer", .obj [("simple", .str "RANDOM")])]),
      ("subsets", .arr
        [.obj [("name", .str "v1"), ("labels", .obj [("version", .str "v1")]),
          ("trafficPolicy", .obj [("loadBalancer", .obj [("simple", .str "ROUND_ROBIN")])])]])])

/-- A virtual service routing HTTP traffic to the subset `v1` of `reviews`. -/
def sampleVirtualService : IstioObject :=
  IstioObject.mk (ObjectMeta.mk "reviews" "bookinfo")
    (some [("hosts", .arr [.str "reviews"]),
      ("http", .arr [.obj [("route", .arr
        [.obj [("destination", .obj [("host", .str "reviews"), ("subset", .str "v1")])]])]])])

/-- A virtual service routing HTTP traffic to `ratings`. -/
def ratingsVirtualService : IstioObject :=
  IstioObject.mk (ObjectMeta.mk "ratings" "bookinfo")
    (some [("hosts", .arr [.str "ratings"]),
      ("http", .arr [.obj [("route", .arr
        [.obj [("destination", .obj [("host", .str "ratings")])]])]])])

/-- A destination rule for `ratings` without subsets. -/
def ratingsDestinationRule : IstioObject :=
  IstioObject.mk (ObjectMeta.mk "ratings" "bookinfo") (some [("host", .str "ratings")])

/-- A destination rule that declares no host. -/
def hostlessDestinationRule : IstioObject :=
  IstioObject.mk (ObjectMeta.mk "hostless" "bookinfo") (some [("subsets", .arr [])])

/-- A virtual service whose `hosts` is a string and not a list. -/
def stringHostsVirtualService : IstioObject :=
  IstioObject.mk (ObjectMeta.mk "reviews" "bookinfo") (some [("hosts", .str "reviews")])

/-- A virtual service whose host list holds the number 42. -/
def numericHostsVirtualService : IstioObject :=
  IstioObject.mk (ObjectMeta.mk "reviews" "bookinfo") (some [("hosts", .arr [.num 42])])

/-- The spec's wording of the filter of `GetDestinationRules`: the service name is
empty, or the rule's host is a string matching the service name and the namespace. -/
def specKeepsDestinationRule (cfg : Config) (ns serviceName : String) (rule : IstioObject) :
    Bool :=
  decide (serviceName = "") ||
    match specGet rule.spec "host" with
    | some (.str host) => FilterByHost cfg host serviceName ns
    | _ => false

/-- The spec's wording of the filter of `GetVirtualServices`: the service name is
empty, or the virtual service has a host defined on the service. -/
def specKeepsVirtualService (lower : String → String) (cfg : Config) (ns serviceName : String)
    (virtualService : IstioObject) : Bool :=
  decide (serviceName = "") ||
    FilterByRoute lower cfg virtualService.spec ["http", "tcp"] serviceName ns none

/-- A client whose list requests succeed: two virtual services and three destination
rules. -/
def sampleClient : IstioClient :=
  IstioClient.mk
    (fun _ => .ok (.virtualServiceList [sampleVirtualService, ratingsVirtualService]))
    (fun _ => .ok (.destinationRuleList
      [sampleDestinationRule, ratingsDestinationRule, hostlessDestinationRule]))

/-- A virtual service routing HTTP traffic to the external host `api.example.com`. -/
def externalVirtualService : IstioObject :=
  IstioObject.mk (ObjectMeta.mk "external-api" "bookinfo")
    (some [("hosts", .arr [.str "api.example.com"]),
      ("http", .arr [.obj [("route", .arr
        [.obj [("destination", .obj [("host", .str "api.example.com")])]])]])])

/-- A spec whose destination names the service `reviews` in `bookinfo` with the label
`version=v1`. -/
def sampleDestinationSpec : Spec :=
  some [("destination", .obj [("namespace", .str "bookinfo"), ("name", .str "reviews"),
    ("labels", .obj [("version", .str "v1")])])]

/-- The lowering of the ASCII capital letters of a string, which is what
`strings.ToLower` does on ASCII text; it stands for `lower` in the examples. -/
def asciiLower (s : String) : String :=
  String.mk (s.data.map Char.toLower)

/-- C1: `FilterByHost` is true exactly when the host is, as a whole string, the service
name, `service.namespace`, `service.namespace.svc` or
`service.namespace.identityDomain`, and false for every other host. -/
theorem FilterByHost_iff (cfg : Config) (host serviceName ns : String) :
    (FilterByHost cfg host serviceName ns = true ↔
      (host = serviceName ∨ host = serviceName ++ "." ++ ns ∨
        host = serviceName ++ "." ++ ns ++ ".svc" ∨
        host = serviceName ++ "." ++ ns ++ "." ++ cfg.istioIdentityDomain)) ∧
    (FilterByHost cfg host serviceName ns = false ↔
      (host ≠ serviceName ∧ host ≠ serviceName ++ "." ++ ns ∧
        host ≠ serviceName ++ "." ++ ns ++ ".svc" ∧
        host ≠ serviceName ++ "." ++ ns ++ "." ++ cfg.istioIdentityDomain)) := by
  have hsvc : serviceName ++ "." ++ ns ++ "." ++ "svc"
      = serviceName ++ "." ++ ns ++ ".svc" := by
    simp [String.append_assoc]
  unfold FilterByHost
  rw [hsvc]
  constructor
  · by_cases h1 : host = serviceName
    · simp [h1]
    · by_cases h2 : host = serviceName ++ "." ++ ns
      · simp [h2]
      · by_cases h3 : host = serviceName ++ "." ++ ns ++ ".svc"
        · simp [h3]
        · by_cases h4 : host = serviceName ++ "." ++ ns ++ "." ++ cfg.istioIdentityDomain
          · simp [h4]
          · simp [h1, h2, h3, h4]
  · by_cases h1 : host = serviceName
    · simp [h1]
    · by_cases h2 : host = serviceName ++ "." ++ ns
      · simp [h2]
      · by_cases h3 : host = serviceName ++ "." ++ ns ++ ".svc"
        · simp [h3]
        · by_cases h4 : host = serviceName ++ "." ++ ns ++ "." ++ cfg.istioIdentityDomain
          · simp [h4]
          · simp [h1, h2, h3, h4]

/-- C8: `mapPortToVirtualServiceProtocol` gives `"http"` exactly for `"HTTP"`, `"HTTP2"`,
`"GRPC"`, gives `"tls"` exactly for `"HTTPS"`, `"TLS"`, and gives `"tcp"` exactly for
every other string, among them the empty string and `"http"`; so the result is always
one of the three classes. -/
theorem mapPortToVirtualServiceProtocol_classes (proto : String) :
    (mapPortToVirtualServiceProtocol proto = "http" ↔
      (proto = "HTTP" ∨ proto = "HTTP2" ∨ proto = "GRPC")) ∧
    (mapPortToVirtualServiceProtocol proto = "tls" ↔ (proto = "HTTPS" ∨ proto = "TLS")) ∧
    (mapPortToVirtualServiceProtocol proto = "tcp" ↔
      (proto ≠ "HTTP" ∧ proto ≠ "HTTP2" ∧ proto ≠ "GRPC" ∧ proto ≠ "HTTPS" ∧ proto ≠ "TLS")) ∧
    mapPortToVirtualServiceProtocol "" = "tcp" ∧
    mapPortToVirtualServiceProtocol "http" = "tcp" ∧
    (mapPortToVirtualServiceProtocol proto = "http" ∨
      mapPortToVirtualServiceProtocol proto = "tls" ∨
      mapPortToVirtualServiceProtocol proto = "tcp") := by
  refine ⟨?_, ?_, ?_, by decide, by decide, ?_⟩ <;>
  · unfold mapPortToVirtualServiceProtocol
    by_cases h1 : proto = "HTTP"
    · simp [h1]
    · by_cases h2 : proto = "HTTP2"
      · simp [h2]
      · by_cases h3 : proto = "GRPC"
        · simp [h3]
        · by_cases h4 : proto = "HTTPS"
          · simp [h4]
          · by_cases h5 : proto = "TLS"
            · simp [h5]
            · simp [h1, h2, h3, h4, h5]

/-- C5: `ValidateVirtualServiceGateways` is false exactly when `gateways` is a list
holding a string that is not `"mesh"` and is not a known gateway name; so it is true
when the list is absent, when the list holds only `"mesh"`, and when every string of
the list is a known name. -/
theorem ValidateVirtualServiceGateways_false_iff (spec : Spec) (gatewayNames : List String) :
    (ValidateVirtualServiceGateways spec gatewayNames = false ↔
      ∃ gateways, specGet spec "gateways" = some (.arr gateways) ∧
        ∃ gate, Value.str gate ∈ gateways ∧ gate ≠ "mesh" ∧ gate ∉ gatewayNames) ∧
    (specGet spec "gateways" = none → ValidateVirtualServiceGateways spec gatewayNames = true) ∧
    (∀ gateways, specGet spec "gateways" = some (.arr gateways) →
      (∀ g ∈ gateways, g = Value.str "mesh") →
      ValidateVirtualServiceGateways spec gatewayNames = true) ∧
    (∀ gateways, specGet spec "gateways" = some (.arr gateways) →
      (∀ gate, Value.str gate ∈ gateways → gate ∈ gatewayNames) →
      ValidateVirtualServiceGateways spec gatewayNames = true) := by
  have key : ValidateVirtualServiceGateways spec gatewayNames = false ↔
      ∃ gateways, specGet spec "gateways" = some (.arr gateways) ∧
        ∃ gate, Value.str gate ∈ gateways ∧ gate ≠ "mesh" ∧ gate ∉ gatewayNames := by
    unfold ValidateVirtualServiceGateways
    split
    · rename_i gws hg
      rw [List.all_eq_false]
      constructor
      · rintro ⟨g, hmem, hg2⟩
        refine ⟨gws, hg, ?_⟩
        cases g with
        | str gate =>
          by_cases hc : gate ∉ gatewayNames ∧ gate ≠ "mesh"
          · exact ⟨gate, hmem, hc.2, hc.1⟩
          · simp [hc] at hg2
        | _ => simp at hg2
      · rintro ⟨gws2, hg2, gate, hmem, hne, hnot⟩
        rw [hg] at hg2
        cases hg2
        exact ⟨Value.str gate, hmem, by simp [hne, hnot]⟩
    · rename_i hno
      constructor
      · intro h
        cases h
      · rintro ⟨gws, hg, _⟩
        exact absurd hg (hno gws)
  refine ⟨key, ?_, ?_, ?_⟩
  · intro hnone
    cases hv : ValidateVirtualServiceGateways spec gatewayNames
    · obtain ⟨gws, hg, _⟩ := key.mp hv
      rw [hnone] at hg
      cases hg
    · rfl
  · intro gws hg hall
    cases hv : ValidateVirtualServiceGateways spec gatewayNames
    · obtain ⟨gws2, hg2, gate, hmem, hne, _⟩ := key.mp hv
      rw [hg] at hg2
      cases hg2
      have := hall _ hmem
      cases this
      exact absurd rfl hne
    · rfl
  · intro gws hg hall
    cases hv : ValidateVirtualServiceGateways spec gatewayNames
    · obtain ⟨gws2, hg2, gate, hmem, _, hnot⟩ := key.mp hv
      rw [hg] at hg2
      cases hg2
      exact absurd (hall _ hmem) hnot
    · rfl

/-- The destination test of `FilterByRoute`, read off the document. -/
theorem destinationRouted_iff (lower : String → String) (cfg : Config)
    (protocol service ns : String) (serviceEntries : Option (List String)) (d : Value) :
    destinationRouted lower cfg protocol service ns serviceEntries d = true ↔
      ∃ md dw h, d = .obj md ∧ mapGet md "destination" = some (.obj dw) ∧
        mapGet dw "host" = some (.str h) ∧
        (FilterByHost cfg h service ns = true ∨
          ∃ entries, serviceEntries = some entries ∧ lower protocol ++ h ∈ entries) := by
  unfold destinationRouted
  constructor
  · intro hd
    split at hd
    · rename_i md
      split at hd
      · rename_i dw hdw
        split at hd
        · rename_i h hh
          refine ⟨md, dw, h, rfl, hdw, hh, ?_⟩
          by_cases hf : FilterByHost cfg h service ns = true
          · exact Or.inl hf
          · right
            rw [if_neg hf] at hd
            split at hd
            · rename_i entries
              exact ⟨entries, rfl, by simpa using hd⟩
            · cases hd
        · cases hd
      · cases hd
    · cases hd
  · rintro ⟨md, dw, h, rfl, hdw, hh, hor⟩
    simp only [hdw, hh]
    rcases hor with hf | ⟨entries, rfl, hmem⟩
    · simp [hf]
    · simp [hmem]

/-- The route test of `FilterByRoute`, read off the document. -/
theorem httpRouteRouted_iff (lower : String → String) (cfg : Config)
    (protocol service ns : String) (serviceEntries : Option (List String)) (r : Value) :
    httpRouteRouted lower cfg protocol service ns serviceEntries r = true ↔
      ∃ mr dws, r = .obj mr ∧ mapGet mr "route" = some (.arr dws) ∧
        ∃ d ∈ dws, destinationRouted lower cfg protocol service ns serviceEntries d = true := by
  unfold httpRouteRouted
  constructor
  · intro hr
    split at hr
    · rename_i mr
      split at hr
      · rename_i dws hdws
        exact ⟨mr, dws, rfl, hdws, List.any_eq_true.mp hr⟩
      · cases hr
    · cases hr
  · rintro ⟨mr, dws, rfl, hdws, hex⟩
    simp only [hdws]
    exact List.any_eq_true.mpr hex

/-- The function `FilterByRoute` as a search through the protocols and their routes. -/
theorem FilterByRoute_eq_true_iff (lower : String → String) (cfg : Config) (spec : Spec)
    (protocols : List String) (service ns : String) (serviceEntries : Option (List String)) :
    FilterByRoute lower cfg spec protocols service ns serviceEntries = true ↔
      ∃ p ∈ protocols, ∃ routes, specGet spec p = some (.arr routes) ∧
        ∃ r ∈ routes, httpRouteRouted lower cfg p service ns serviceEntries r = true := by
  unfold FilterByRoute
  by_cases hlen : protocols.length = 0
  · have : protocols = [] := List.length_eq_zero.mp hlen
    subst this
    simp
  · rw [if_neg hlen, List.any_eq_true]
    constructor
    · rintro ⟨p, hp, hm⟩
      split at hm
      · rename_i routes hroutes
        exact ⟨p, hp, routes, hroutes, List.any_eq_true.mp hm⟩
      · cases hm
    · rintro ⟨p, hp, routes, hroutes, hex⟩
      refine ⟨p, hp, ?_⟩
      simp only [hroutes]
      exact List.any_eq_true.mpr hex

/-- The destination test of `FilterByRouteAndSubset`, read off the document. -/
theorem destinationSubsetRouted_iff (cfg : Config) (service ns : String)
    (subsets : List String) (d : Value) :
    destinationSubsetRouted cfg service ns subsets d = true ↔
      ∃ md dw h sub, d = .obj md ∧ mapGet md "destination" = some (.obj dw) ∧
        mapGet dw "host" = some (.str h) ∧ FilterByHost cfg h service ns = true ∧
        mapGet dw "subset" = some (.str sub) ∧ sub ∈ subsets := by
  unfold destinationSubsetRouted
  constructor
  · intro hd
    split at hd
    · rename_i md
      split at hd
      · rename_i dw hdw
        split at hd
        · rename_i h hh
          by_cases hf : FilterByHost cfg h service ns = true
          · rw [if_pos hf] at hd
            split at hd
            · rename_i sub hsub
              refine ⟨md, dw, h, sub, rfl, hdw, hh, hf, hsub, ?_⟩
              obtain ⟨c, hc, heq⟩ := List.any_eq_true.mp hd
              have : sub = c := by simpa using heq
              exact this ▸ hc
            · cases hd
          · rw [if_neg hf] at hd
            cases hd
        · cases hd
      · cases hd
    · cases hd
  · rintro ⟨md, dw, h, sub, rfl, hdw, hh, hf, hsub, hmem⟩
    simp only [hdw, hh, hsub, if_pos hf]
    exact List.any_eq_true.mpr ⟨sub, hmem, by simp⟩

/-- The route test of `FilterByRouteAndSubset`, read off the document. -/
theorem httpRouteSubsetRouted_iff (cfg : Config) (service ns : String)
    (subsets : List String) (r : Value) :
    httpRouteSubsetRouted cfg service ns subsets r = true ↔
      ∃ mr dws, r = .obj mr ∧ mapGet mr "route" = some (.arr dws) ∧
        ∃ d ∈ dws, destinationSubsetRouted cfg service ns subsets d = true := by
  unfold httpRouteSubsetRouted
  constructor
  · intro hr
    split at hr
    · rename_i mr
      split at hr
      · rename_i dws hdws
        exact ⟨mr, dws, rfl, hdws, List.any_eq_true.mp hr⟩
      · cases hr
    · cases hr
  · rintro ⟨mr, dws, rfl, hdws, hex⟩
    simp only [hdws]
    exact List.any_eq_true.mpr hex

/-- The function `FilterByRouteAndSubset` as a search through the protocols and their routes. -/
theorem FilterByRouteAndSubset_eq_true_iff (cfg : Config) (spec : Spec)
    (protocols : List String) (service ns : String) (subsets : List String) :
    FilterByRouteAndSubset cfg spec protocols service ns subsets = true ↔
      ∃ p ∈ protocols, ∃ routes, specGet spec p = some (.arr routes) ∧
        ∃ r ∈ routes, httpRouteSubsetRouted cfg service ns subsets r = true := by
  unfold FilterByRouteAndSubset
  by_cases hlen : protocols.length = 0
  · have : protocols = [] := List.length_eq_zero.mp hlen
    subst this
    simp
  · rw [if_neg hlen, List.any_eq_true]
    constructor
    · rintro ⟨p, hp, hm⟩
      split at hm
      · rename_i routes hroutes
        exact ⟨p, hp, routes, hroutes, List.any_eq_true.mp hm⟩
      · cases hm
    · rintro ⟨p, hp, routes, hroutes, hex⟩
      refine ⟨p, hp, ?_⟩
      simp only [hroutes]
      exact List.any_eq_true.mpr hex

/-- C2: `FilterByRoute` is true exactly when some protocol `p` of the list has under
`spec[p]` a list holding a route object whose `route` is a list holding an object whose
`destination` is an object with a string `host` that either passes `FilterByHost` or,
the external hosts being supplied, has `lower p ++ host` among them. The function is
total: a field that is absent or of another type only removes its branch. -/
theorem FilterByRoute_iff (lower : String → String) (cfg : Config) (spec : Spec)
    (protocols : List String) (service ns : String) (serviceEntries : Option (List String)) :
    FilterByRoute lower cfg spec protocols service ns serviceEntries = true ↔
      ∃ p ∈ protocols, ∃ routes, specGet spec p = some (.arr routes) ∧
        ∃ r ∈ routes, ∃ mr dws, r = .obj mr ∧ mapGet mr "route" = some (.arr dws) ∧
          ∃ d ∈ dws, ∃ md dw h, d = .obj md ∧ mapGet md "destination" = some (.obj dw) ∧
            mapGet dw "host" = some (.str h) ∧
            (FilterByHost cfg h service ns = true ∨
              ∃ entries, serviceEntries = some entries ∧ lower p ++ h ∈ entries) := by
  rw [FilterByRoute_eq_true_iff]
  simp only [httpRouteRouted_iff, destinationRouted_iff]

/-- C9: `FilterByRouteAndSubset` is true exactly when some protocol `p` of the list has
under `spec[p]` a list holding a route object whose `route` is a list holding an object
whose `destination` is an object with a string `host` passing `FilterByHost` and a
string `subset` that is one of the supplied names. -/
theorem FilterByRouteAndSubset_iff (cfg : Config) (spec : Spec) (protocols : List String)
    (service ns : String) (subsets : List String) :
    FilterByRouteAndSubset cfg spec protocols service ns subsets = true ↔
      ∃ p ∈ protocols, ∃ routes, specGet spec p = some (.arr routes) ∧
        ∃ r ∈ routes, ∃ mr dws, r = .obj mr ∧ mapGet mr "route" = some (.arr dws) ∧
          ∃ d ∈ dws, ∃ md dw h sub, d = .obj md ∧
            mapGet md "destination" = some (.obj dw) ∧
            mapGet dw "host" = some (.str h) ∧ FilterByHost cfg h service ns = true ∧
            mapGet dw "subset" = some (.str sub) ∧ sub ∈ subsets := by
  rw [FilterByRouteAndSubset_eq_true_iff]
  simp only [httpRouteSubsetRouted_iff, destinationSubsetRouted_iff]

/-- The comparison of an `interface{}` with a string holds for that string only. -/
theorem valueEqString_iff (v : Value) (s : String) :
    valueEqString v s = true ↔ v = .str s := by
  cases v <;> simp [valueEqString]

/-- The traffic-policy test: an object holding one of the two keys. -/
theorem hasTrafficPolicy_iff (m : Obj) :
    hasTrafficPolicy m = true ↔
      ∃ tp, mapGet m "trafficPolicy" = some (.obj tp) ∧
        ((mapGet tp "connectionPool").isSome = true ∨
          (mapGet tp "outlierDetection").isSome = true) := by
  unfold hasTrafficPolicy
  constructor
  · intro h
    split at h
    · rename_i v hv
      cases v with
      | obj tp =>
        refine ⟨tp, hv, ?_⟩
        unfold checkTrafficPolicy at h
        by_cases h1 : (mapGet tp "connectionPool").isSome = true
        · exact Or.inl h1
        · by_cases h2 : (mapGet tp "outlierDetection").isSome = true
          · exact Or.inr h2
          · simp [h1, h2] at h
      | _ => simp [checkTrafficPolicy] at h
    · cases h
  · rintro ⟨tp, htp, hor⟩
    simp only [htp, checkTrafficPolicy]
    rcases hor with h1 | h2
    · simp [h1]
    · simp [h2]

/-- The label test: `labels` is an object mapping the version label to the version. -/
theorem labelsMatchVersion_iff (cfg : Config) (version : String) (m : Obj) :
    labelsMatchVersion cfg version m = true ↔
      ∃ labels, mapGet m "labels" = some (.obj labels) ∧
        mapGet labels cfg.versionLabelName = some (.str version) := by
  unfold labelsMatchVersion
  constructor
  · intro h
    split at h
    · rename_i labels hl
      split at h
      · rename_i v hv
        exact ⟨labels, hl, by rw [hv, (valueEqString_iff v version).mp h]⟩
      · cases h
    · cases h
  · rintro ⟨labels, hl, hv⟩
    simp only [hl, hv]
    exact (valueEqString_iff _ _).mpr rfl

/-- The subset test of `CheckDestinationRuleCircuitBreaker`, read off the document. -/
theorem subsetCircuitBreaker_iff (cfg : Config) (version : String) (s : Value) :
    subsetCircuitBreaker cfg version s = true ↔
      ∃ ms, s = .obj ms ∧ hasTrafficPolicy ms = true ∧
        labelsMatchVersion cfg version ms = true := by
  unfold subsetCircuitBreaker
  cases s with
  | obj ms =>
    by_cases hp : hasTrafficPolicy ms = true
    · simp [hp]
    · simp [hp]
  | _ => simp

/-- The function `CheckDestinationRuleCircuitBreaker` through the tests of its levels. -/
theorem CheckDestinationRuleCircuitBreaker_eq_true_iff (cfg : Config)
    (destinationRule : Option IstioObject) (ns serviceName version : String) :
    CheckDestinationRuleCircuitBreaker cfg destinationRule ns serviceName version = true ↔
      ∃ rule spec host, destinationRule = some rule ∧ rule.spec = some spec ∧
        mapGet spec "host" = some (.str host) ∧
        FilterByHost cfg host serviceName ns = true ∧
        (hasTrafficPolicy spec = true ∨
          (version ≠ "" ∧ ∃ subsets, mapGet spec "subsets" = some (.arr subsets) ∧
            ∃ s ∈ subsets, subsetCircuitBreaker cfg version s = true)) := by
  unfold CheckDestinationRuleCircuitBreaker
  constructor
  · intro h
    split at h
    · cases h
    · rename_i rule
      split at h
      · cases h
      · rename_i spec hspec
        split at h
        · rename_i host hhost
          by_cases hf : FilterByHost cfg host serviceName ns = true
          · rw [if_pos hf] at h
            refine ⟨rule, spec, host, rfl, hspec, hhost, hf, ?_⟩
            by_cases hp : hasTrafficPolicy spec = true
            · exact Or.inl hp
            · rw [if_neg hp] at h
              by_cases hv : version = ""
              · rw [if_pos hv] at h
                cases h
              · rw [if_neg hv] at h
                split at h
                · rename_i subsets hsub
                  exact Or.inr ⟨hv, subsets, hsub, List.any_eq_true.mp h⟩
                · cases h
          · rw [if_neg hf] at h
            cases h
        · cases h
  · rintro ⟨rule, spec, host, rfl, hspec, hhost, hf, hor⟩
    simp only [hspec, hhost, if_pos hf]
    by_cases hp : hasTrafficPolicy spec = true
    · rw [if_pos hp]
    · rw [if_neg hp]
      rcases hor with hp2 | ⟨hv, subsets, hsub, hex⟩
      · exact absurd hp2 hp
      · rw [if_neg hv]
        simp only [hsub]
        exact List.any_eq_true.mpr hex

/-- C3: `CheckDestinationRuleCircuitBreaker` is true exactly when the rule is non-nil
with a spec whose `host` is a string passing `FilterByHost` for the service and
namespace, and either the spec's own `trafficPolicy` is an object holding a
`connectionPool` or `outlierDetection` key (whatever the version), or the version is
not empty and some entry of `subsets` is an object whose `trafficPolicy` holds one of
the two keys and whose `labels` object maps the version label to the version. -/
theorem CheckDestinationRuleCircuitBreaker_iff (cfg : Config)
    (destinationRule : Option IstioObject) (ns serviceName version : String) :
    CheckDestinationRuleCircuitBreaker cfg destinationRule ns serviceName version = true ↔
      ∃ rule spec host, destinationRule = some rule ∧ rule.spec = some spec ∧
        mapGet spec "host" = some (.str host) ∧
        FilterByHost cfg host serviceName ns = true ∧
        ((∃ tp, mapGet spec "trafficPolicy" = some (.obj tp) ∧
            ((mapGet tp "connectionPool").isSome = true ∨
              (mapGet tp "outlierDetection").isSome = true)) ∨
          (version ≠ "" ∧ ∃ subsets, mapGet spec "subsets" = some (.arr subsets) ∧
            ∃ s ∈ subsets, ∃ ms, s = .obj ms ∧
              (∃ tp, mapGet ms "trafficPolicy" = some (.obj tp) ∧
                ((mapGet tp "connectionPool").isSome = true ∨
                  (mapGet tp "outlierDetection").isSome = true)) ∧
              ∃ labels, mapGet ms "labels" = some (.obj labels) ∧
                mapGet labels cfg.versionLabelName = some (.str version))) := by
  rw [CheckDestinationRuleCircuitBreaker_eq_true_iff]
  simp only [subsetCircuitBreaker_iff, hasTrafficPolicy_iff, labelsMatchVersion_iff]

/-- C6: `GetIstioDetails`, by the results of its two fetches: when the virtual-service
fetch failed it returns that error and no details, whatever the destination-rule fetch
gave; otherwise when the destination-rule fetch failed it returns that error and no
details; otherwise it returns no error and the details holding exactly the two fetched
collections. Details never come with an error, and an error never comes with details. -/
theorem GetIstioDetails_result (lower : String → String) (cfg : Config) (client : IstioClient)
    (ns serviceName : String) :
    (∀ e, (GetVirtualServices lower cfg client ns serviceName).2 = some e →
      GetIstioDetails lower cfg client ns serviceName = (none, some e)) ∧
    ((GetVirtualServices lower cfg client ns serviceName).2 = none →
      ∀ e, (GetDestinationRules cfg client ns serviceName).2 = some e →
        GetIstioDetails lower cfg client ns serviceName = (none, some e)) ∧
    ((GetVirtualServices lower cfg client ns serviceName).2 = none →
      (GetDestinationRules cfg client ns serviceName).2 = none →
        GetIstioDetails lower cfg client ns serviceName =
          (some (IstioDetails.mk (GetVirtualServices lower cfg client ns serviceName).1
            (GetDestinationRules cfg client ns serviceName).1), none)) ∧
    ((GetIstioDetails lower cfg client ns serviceName).1.isSome = true ↔
      (GetIstioDetails lower cfg client ns serviceName).2 = none) := by
  unfold GetIstioDetails
  cases hv : (GetVirtualServices lower cfg client ns serviceName).2 with
  | some e1 => simp [hv]
  | none =>
    cases hd : (GetDestinationRules cfg client ns serviceName).2 with
    | some e2 => simp [hv, hd]
    | none => simp [hv, hd]

/-- The scenario of C6 on a client whose virtual-service request fails and whose
destination-rule request returns one rule: only the error comes back. -/
theorem GetIstioDetails_result_witness :
    GetIstioDetails id (Config.mk "version" "svc.cluster.local")
      (IstioClient.mk (fun _ => .error "virtual services unavailable")
        (fun _ => .ok (.destinationRuleList
          [IstioObject.mk (ObjectMeta.mk "reviews" "bookinfo")
            (some [("host", .str "reviews")])])))
      "bookinfo" "reviews" = (none, some "virtual services unavailable") :=
  (GetIstioDetails_result id (Config.mk "version" "svc.cluster.local")
      (IstioClient.mk (fun _ => .error "virtual services unavailable")
        (fun _ => .ok (.destinationRuleList
          [IstioObject.mk (ObjectMeta.mk "reviews" "bookinfo")
            (some [("host", .str "reviews")])])))
      "bookinfo" "reviews").1 "virtual services unavailable" rfl

/-- A key is in the set after an insertion when it was there or is the new key. -/
theorem mem_setInsert (m : List String) (k x : String) :
    x ∈ setInsert m k ↔ x ∈ m ∨ x = k := by
  unfold setInsert
  by_cases h : k ∈ m
  · rw [if_pos h]
    constructor
    · exact Or.inl
    · rintro (hx | rfl)
      · exact hx
      · exact h
  · rw [if_neg h]
    simp

/-- The keys after the loop over the hosts of one entry. -/
theorem mem_foldl_setInsert (f : Value → String) (hosts : List Value) (acc : List String)
    (x : String) :
    x ∈ hosts.foldl (fun m h => setInsert m (f h)) acc ↔ x ∈ acc ∨ ∃ v ∈ hosts, x = f v := by
  induction hosts generalizing acc with
  | nil => simp
  | cons h rest ih =>
    rw [List.foldl_cons, ih, mem_setInsert]
    constructor
    · rintro ((hx | hx) | ⟨v, hv, hx⟩)
      · exact Or.inl hx
      · exact Or.inr ⟨h, List.mem_cons_self _ _, hx⟩
      · exact Or.inr ⟨v, List.mem_cons_of_mem _ hv, hx⟩
    · rintro (hx | ⟨v, hv, hx⟩)
      · exact Or.inl (Or.inl hx)
      · rcases List.mem_cons.mp hv with rfl | hv2
        · exact Or.inl (Or.inr hx)
        · exact Or.inr ⟨v, hv2, hx⟩

/-- The keys that one service entry adds to the index. -/
theorem mem_serviceEntryStep (fmtV : Value → String) (acc : List String) (e : IstioObject)
    (x : String) :
    x ∈ serviceEntryStep fmtV acc e ↔
      x ∈ acc ∨ ∃ hosts ports proto, specGet e.spec "hosts" = some (.arr hosts) ∧
        specGet e.spec "ports" = some (.obj ports) ∧
        mapGet ports "protocol" = some (.str proto) ∧
        ∃ v ∈ hosts, x = mapPortToVirtualServiceProtocol proto ++ sprintV fmtV v := by
  unfold serviceEntryStep
  split
  · rename_i hosts hh
    split
    · rename_i ports hp
      split
      · rename_i proto hpr
        rw [mem_foldl_setInsert (fun h => mapPortToVirtualServiceProtocol proto ++ sprintV fmtV h)]
        constructor
        · rintro (hx | hex)
          · exact Or.inl hx
          · exact Or.inr ⟨hosts, ports, proto, hh, hp, hpr, hex⟩
        · rintro (hx | ⟨hosts2, ports2, proto2, h1, h2, h3, hex⟩)
          · exact Or.inl hx
          · rw [hh] at h1
            cases h1
            rw [hp] at h2
            cases h2
            rw [hpr] at h3
            cases h3
            exact Or.inr hex
      · rename_i hno
        constructor
        · exact Or.inl
        · rintro (hx | ⟨hosts2, ports2, proto2, _, h2, h3, _⟩)
          · exact hx
          · rw [hp] at h2
            cases h2
            exact absurd h3 (hno proto2)
    · rename_i hno
      constructor
      · exact Or.inl
      · rintro (hx | ⟨hosts2, ports2, proto2, _, h2, _, _⟩)
        · exact hx
        · exact absurd h2 (hno ports2)
  · rename_i hno
    constructor
    · exact Or.inl
    · rintro (hx | ⟨hosts2, ports2, proto2, h1, _, _, _⟩)
      · exact hx
      · exact absurd h1 (hno hosts2)

/-- The keys after the loop over the service entries. -/
theorem mem_foldl_serviceEntryStep (fmtV : Value → String) (entries : List IstioObject)
    (acc : List String) (x : String) :
    x ∈ entries.foldl (serviceEntryStep fmtV) acc ↔
      x ∈ acc ∨ ∃ e ∈ entries, ∃ hosts ports proto,
        specGet e.spec "hosts" = some (.arr hosts) ∧
        specGet e.spec "ports" = some (.obj ports) ∧
        mapGet ports "protocol" = some (.str proto) ∧
        ∃ v ∈ hosts, x = mapPortToVirtualServiceProtocol proto ++ sprintV fmtV v := by
  induction entries generalizing acc with
  | nil => simp
  | cons e rest ih =>
    rw [List.foldl_cons, ih, mem_serviceEntryStep]
    constructor
    · rintro ((hx | hx) | ⟨e2, he2, hx⟩)
      · exact Or.inl hx
      · exact Or.inr ⟨e, List.mem_cons_self _ _, hx⟩
      · exact Or.inr ⟨e2, List.mem_cons_of_mem _ he2, hx⟩
    · rintro (hx | ⟨e2, he2, hx⟩)
      · exact Or.inl (Or.inl hx)
      · rcases List.mem_cons.mp he2 with rfl | he3
        · exact Or.inl (Or.inr hx)
        · exact Or.inr ⟨e2, he3, hx⟩

/-- The key set of `ServiceEntryHostnames`, for any service entries. -/
theorem mem_ServiceEntryHostnames_iff (fmtV : Value → String) (entries : List IstioObject)
    (x : String) :
    x ∈ ServiceEntryHostnames fmtV entries ↔
      ∃ e ∈ entries, ∃ hosts ports proto,
        specGet e.spec "hosts" = some (.arr hosts) ∧
        specGet e.spec "ports" = some (.obj ports) ∧
        mapGet ports "protocol" = some (.str proto) ∧
        ∃ v ∈ hosts, x = mapPortToVirtualServiceProtocol proto ++ sprintV fmtV v := by
  unfold ServiceEntryHostnames
  rw [mem_foldl_serviceEntryStep]
  simp

/-- The protocol class is one of the three lowercase names. -/
theorem mapPortToVirtualServiceProtocol_mem (proto : String) :
    mapPortToVirtualServiceProtocol proto = "http" ∨
      mapPortToVirtualServiceProtocol proto = "tls" ∨
      mapPortToVirtualServiceProtocol proto = "tcp" := by
  unfold mapPortToVirtualServiceProtocol
  split
  · exact Or.inl rfl
  · split
    · exact Or.inl rfl
    · split
      · exact Or.inl rfl
      · split
        · exact Or.inr (Or.inl rfl)
        · split
          · exact Or.inr (Or.inl rfl)
          · exact Or.inr (Or.inr rfl)

/-- C7: when every service entry has a list of strings as `hosts` and an object with a
string `protocol` as `ports`, the keys of `ServiceEntryHostnames` are exactly the
strings `class ++ host`, the host ranging over the hosts of an entry, written as it is
declared, and the class being that entry's port protocol mapped by
`mapPortToVirtualServiceProtocol`, one of `"http"`, `"tls"`, `"tcp"`. -/
theorem ServiceEntryHostnames_keys (fmtV : Value → String) (entries : List IstioObject)
    (hwf : ∀ e ∈ entries, ∃ (hs : List String) (ports : Obj) (proto : String),
      specGet e.spec "hosts" = some (.arr (hs.map Value.str)) ∧
      specGet e.spec "ports" = some (.obj ports) ∧
      mapGet ports "protocol" = some (.str proto)) (x : String) :
    x ∈ ServiceEntryHostnames fmtV entries ↔
      ∃ e ∈ entries, ∃ (hs : List String) (ports : Obj) (proto : String),
        specGet e.spec "hosts" = some (.arr (hs.map Value.str)) ∧
        specGet e.spec "ports" = some (.obj ports) ∧
        mapGet ports "protocol" = some (.str proto) ∧
        ∃ host ∈ hs, x = mapPortToVirtualServiceProtocol proto ++ host ∧
          (mapPortToVirtualServiceProtocol proto = "http" ∨
            mapPortToVirtualServiceProtocol proto = "tls" ∨
            mapPortToVirtualServiceProtocol proto = "tcp") := by
  rw [mem_ServiceEntryHostnames_iff]
  constructor
  · rintro ⟨e, he, hosts, ports, proto, h1, h2, h3, v, hv, hx⟩
    obtain ⟨hs, ports2, proto2, g1, g2, g3⟩ := hwf e he
    rw [h1] at g1
    rw [h2] at g2
    cases g2
    rw [h3] at g3
    cases g3
    have hhosts : hosts = hs.map Value.str := by
      cases g1
      rfl
    subst hhosts
    obtain ⟨host, hhost, rfl⟩ := List.mem_map.mp hv
    exact ⟨e, he, hs, ports, proto, h1, h2, h3, host, hhost, hx,
      mapPortToVirtualServiceProtocol_mem proto⟩
  · rintro ⟨e, he, hs, ports, proto, h1, h2, h3, host, hhost, hx, _⟩
    exact ⟨e, he, hs.map Value.str, ports, proto, h1, h2, h3, Value.str host,
      List.mem_map.mpr ⟨host, hhost, rfl⟩, hx⟩

/-- A service entry meeting the hypothesis of C7, and one of the keys it gives. -/
theorem ServiceEntryHostnames_keys_witness :
    (∀ e ∈ [sampleServiceEntry], ∃ (hs : List String) (ports : Obj) (proto : String),
      specGet e.spec "hosts" = some (.arr (hs.map Value.str)) ∧
      specGet e.spec "ports" = some (.obj ports) ∧
      mapGet ports "protocol" = some (.str proto)) ∧
    "httpapi.example.com" ∈ ServiceEntryHostnames (fun _ => "") [sampleServiceEntry] :=
  have hyp : ∀ e ∈ [sampleServiceEntry],
      ∃ (hs : List String) (ports : Obj) (proto : String),
        specGet e.spec "hosts" = some (.arr (hs.map Value.str)) ∧
        specGet e.spec "ports" = some (.obj ports) ∧
        mapGet ports "protocol" = some (.str proto) := by
    intro e he
    rw [List.mem_singleton] at he
    subst he
    exact ⟨["api.example.com"], [("number", .num 443), ("protocol", .str "GRPC")], "GRPC",
      rfl, rfl, rfl⟩
  ⟨hyp, (ServiceEntryHostnames_keys (fun _ => "") [sampleServiceEntry] hyp
    "httpapi.example.com").mpr
    ⟨sampleServiceEntry, List.mem_singleton.mpr rfl, ["api.example.com"],
      [("number", .num 443), ("protocol", .str "GRPC")], "GRPC", rfl, rfl, rfl,
      "api.example.com", List.mem_singleton.mpr rfl, by decide, Or.inl (by decide)⟩⟩

/-- The label test of the code and the spec's wording of it agree on an object. -/
theorem labelsMatchVersion_eq_spec (cfg : Config) (version : String) (m : Obj) :
    labelsMatchVersion cfg version m = specSubsetHasVersion cfg version (.obj m) := by
  unfold labelsMatchVersion specSubsetHasVersion
  simp only
  cases hl : mapGet m "labels" with
  | none => rfl
  | some l =>
    cases l with
    | obj labels =>
      simp only
      cases hv : mapGet labels cfg.versionLabelName with
      | none => rfl
      | some v => cases v <;> simp [valueEqString]
    | _ => rfl

/-- The loop over the subsets of a rule appends, in order, the names of the subsets
carrying the version, provided each of them declares a string name. -/
theorem subsetsLoop_eq (cfg : Config) (version : String) (xs : List Value) (acc : List String)
    (h : ∀ s ∈ xs.filter (specSubsetHasVersion cfg version), ∃ n, specSubsetName s = some n) :
    subsetsLoop cfg version xs acc =
      some (acc ++ (xs.filter (specSubsetHasVersion cfg version)).filterMap specSubsetName) := by
  induction xs generalizing acc with
  | nil => simp [subsetsLoop]
  | cons s rest ih =>
    by_cases hs : specSubsetHasVersion cfg version s = true
    · have hrest : ∀ t ∈ rest.filter (specSubsetHasVersion cfg version),
          ∃ n, specSubsetName t = some n := by
        intro t ht
        apply h
        rw [List.filter_cons_of_pos hs]
        exact List.mem_cons_of_mem _ ht
      obtain ⟨n, hn⟩ := h s (by rw [List.filter_cons_of_pos hs]; exact List.mem_cons_self _ _)
      cases s with
      | obj m =>
        have hm : labelsMatchVersion cfg version m = true := by
          rw [labelsMatchVersion_eq_spec]; exact hs
        have hname : mapGet m "name" = some (.str n) := by
          simp only [specSubsetName] at hn
          split at hn
          · rename_i nm hnm
            cases hn
            exact hnm
          · cases hn
        rw [subsetsLoop, if_pos hm]
        simp only [hname]
        rw [ih _ hrest, List.filter_cons_of_pos hs]
        simp [specSubsetName, hname]
      | _ => simp [specSubsetHasVersion] at hs
    · have hrest : ∀ t ∈ rest.filter (specSubsetHasVersion cfg version),
          ∃ n, specSubsetName t = some n := by
        intro t ht
        apply h
        rw [List.filter_cons_of_neg hs]
        exact ht
      rw [List.filter_cons_of_neg hs]
      cases s with
      | obj m =>
        have hm : ¬ labelsMatchVersion cfg version m = true := by
          rw [labelsMatchVersion_eq_spec]; exact hs
        rw [subsetsLoop, if_neg hm]
        exact ih _ hrest
      | _ =>
        simp only [subsetsLoop]
        exact ih _ hrest

/-- One turn of the loop over the rules: the subsets of a rule are scanned when its
host matches, and the scan of a rule without a subset list changes nothing. -/
theorem rulesLoop_cons (cfg : Config) (serviceName version : String) (r : IstioObject)
    (rest : List IstioObject) (acc : List String) :
    rulesLoop cfg serviceName version (r :: rest) acc =
      match subsetsLoop cfg version
          (if specRuleHostMatches cfg serviceName r then specRuleSubsets r else []) acc with
      | some found => rulesLoop cfg serviceName version rest found
      | none => none := by
  unfold specRuleHostMatches specRuleSubsets
  simp only [rulesLoop]
  split
  · rename_i host hhost
    by_cases hf : FilterByHost cfg host serviceName r.objectMeta.Namespace = true
    · simp only [hf, if_true]
      split
      · rfl
      · simp [subsetsLoop]
    · simp [hf, subsetsLoop]
  · simp [subsetsLoop]

/-- The qualifying subsets of a list of rules, rule by rule. -/
theorem specVersionSubsets_cons (cfg : Config) (serviceName version : String)
    (r : IstioObject) (rest : List IstioObject) :
    specVersionSubsets cfg (r :: rest) serviceName version =
      (if specRuleHostMatches cfg serviceName r then specRuleSubsets r else []).filter
          (specSubsetHasVersion cfg version) ++
        specVersionSubsets cfg rest serviceName version := by
  unfold specVersionSubsets
  rw [List.flatMap_cons]
  by_cases h : specRuleHostMatches cfg serviceName r = true
  · simp [h]
  · simp [h]

/-- The loop over the rules appends, in order, the names of the qualifying subsets,
provided each of them declares a string name. -/
theorem rulesLoop_eq (cfg : Config) (serviceName version : String)
    (rules : List IstioObject) (acc : List String)
    (h : ∀ s ∈ specVersionSubsets cfg rules serviceName version,
      ∃ n, specSubsetName s = some n) :
    rulesLoop cfg serviceName version rules acc =
      some (acc ++
        (specVersionSubsets cfg rules serviceName version).filterMap specSubsetName) := by
  induction rules generalizing acc with
  | nil => simp [rulesLoop, specVersionSubsets]
  | cons r rest ih =>
    rw [specVersionSubsets_cons] at h
    rw [rulesLoop_cons, specVersionSubsets_cons,
      subsetsLoop_eq cfg version _ acc (fun s hs => h s (List.mem_append_left _ hs))]
    simp only
    rw [ih _ (fun s hs => h s (List.mem_append_right _ hs)), List.filterMap_append,
      List.append_assoc]

/-- Names read from subsets that all declare one are the names of those subsets. -/
theorem map_some_filterMap_specSubsetName (l : List Value)
    (h : ∀ s ∈ l, ∃ n, specSubsetName s = some n) :
    (l.filterMap specSubsetName).map some = l.map specSubsetName := by
  induction l with
  | nil => rfl
  | cons s rest ih =>
    obtain ⟨n, hn⟩ := h s (List.mem_cons_self _ _)
    rw [List.filterMap_cons_some hn, List.map_cons, List.map_cons, hn,
      ih (fun t ht => h t (List.mem_cons_of_mem _ ht))]

/-- C4: when every qualifying subset declares a string name, `GetDestinationRulesSubsets`
returns the names of the qualifying subsets and nothing else: the subsets whose labels
map the version label to the version, in the rules whose host matches the service name
under the rule's own namespace, rules in list order and subsets in order within a
rule, repeated names kept; so the result is as long as the list of such subsets. -/
theorem GetDestinationRulesSubsets_names (cfg : Config) (destinationRules : List IstioObject)
    (serviceName version : String)
    (hnames : ∀ s ∈ specVersionSubsets cfg destinationRules serviceName version,
      ∃ n, specSubsetName s = some n) :
    ∃ names, GetDestinationRulesSubsets cfg destinationRules serviceName version = some names ∧
      names.map some =
        (specVersionSubsets cfg destinationRules serviceName version).map specSubsetName ∧
      names.length = (specVersionSubsets cfg destinationRules serviceName version).length := by
  refine ⟨(specVersionSubsets cfg destinationRules serviceName version).filterMap
    specSubsetName, ?_, map_some_filterMap_specSubsetName _ hnames, ?_⟩
  · unfold GetDestinationRulesSubsets
    rw [rulesLoop_eq cfg serviceName version destinationRules [] hnames, List.nil_append]
  · have := congrArg List.length (map_some_filterMap_specSubsetName _ hnames)
    simpa using this

/-- A list of two rules meeting the hypothesis of C4: the subset `v2` of each is
returned, once for each rule. -/
theorem GetDestinationRulesSubsets_names_witness :
    (∀ s ∈ specVersionSubsets sampleConfig [sampleDestinationRule, sampleDestinationRule]
        "reviews" "v2", ∃ n, specSubsetName s = some n) ∧
    (∃ names, GetDestinationRulesSubsets sampleConfig
        [sampleDestinationRule, sampleDestinationRule] "reviews" "v2" = some names ∧
      names.map some =
        (specVersionSubsets sampleConfig [sampleDestinationRule, sampleDestinationRule]
          "reviews" "v2").map specSubsetName ∧
      names.length =
        (specVersionSubsets sampleConfig [sampleDestinationRule, sampleDestinationRule]
          "reviews" "v2").length) ∧
    GetDestinationRulesSubsets sampleConfig [sampleDestinationRule, sampleDestinationRule]
      "reviews" "v2" = some ["v2", "v2"] :=
  have hq : specVersionSubsets sampleConfig [sampleDestinationRule, sampleDestinationRule]
      "reviews" "v2" =
      [.obj [("name", .str "v2"), ("labels", .obj [("version", .str "v2")]),
          ("trafficPolicy", .obj [("outlierDetection", .obj [])])],
        .obj [("name", .str "v2"), ("labels", .obj [("version", .str "v2")]),
          ("trafficPolicy", .obj [("outlierDetection", .obj [])])]] := rfl
  have hyp : ∀ s ∈ specVersionSubsets sampleConfig
      [sampleDestinationRule, sampleDestinationRule] "reviews" "v2",
      ∃ n, specSubsetName s = some n := by
    intro s hs
    rw [hq] at hs
    simp only [List.mem_cons, List.mem_singleton, List.not_mem_nil, or_false, or_self] at hs
    subst hs
    exact ⟨"v2", rfl⟩
  ⟨hyp, GetDestinationRulesSubsets_names sampleConfig
    [sampleDestinationRule, sampleDestinationRule] "reviews" "v2" hyp, rfl⟩

/-- The loop over the subsets of a rule panics when a subset carrying the version
declares no string name. -/
theorem subsetsLoop_none (cfg : Config) (version : String) (xs : List Value)
    (acc : List String)
    (h : ∃ s ∈ xs.filter (specSubsetHasVersion cfg version), specSubsetName s = none) :
    subsetsLoop cfg version xs acc = none := by
  induction xs generalizing acc with
  | nil =>
    obtain ⟨s, hs, _⟩ := h
    simp at hs
  | cons x rest ih =>
    obtain ⟨s, hs, hnone⟩ := h
    by_cases hx : specSubsetHasVersion cfg version x = true
    · rw [List.filter_cons_of_pos hx] at hs
      cases x with
      | obj m =>
        have hm : labelsMatchVersion cfg version m = true := by
          rw [labelsMatchVersion_eq_spec]; exact hx
        rw [subsetsLoop, if_pos hm]
        split
        · rename_i n hn
          rcases List.mem_cons.mp hs with rfl | hs2
          · simp [specSubsetName, hn] at hnone
          · exact ih _ ⟨s, hs2, hnone⟩
        · rfl
      | _ => simp [specSubsetHasVersion] at hx
    · rw [List.filter_cons_of_neg hx] at hs
      cases x with
      | obj m =>
        have hm : ¬ labelsMatchVersion cfg version m = true := by
          rw [labelsMatchVersion_eq_spec]; exact hx
        rw [subsetsLoop, if_neg hm]
        exact ih _ ⟨s, hs, hnone⟩
      | _ =>
        simp only [subsetsLoop]
        exact ih _ ⟨s, hs, hnone⟩

/-- The loop over the rules panics when a qualifying subset declares no string name. -/
theorem rulesLoop_none (cfg : Config) (serviceName version : String)
    (rules : List IstioObject) (acc : List String)
    (h : ∃ s ∈ specVersionSubsets cfg rules serviceName version, specSubsetName s = none) :
    rulesLoop cfg serviceName version rules acc = none := by
  induction rules generalizing acc with
  | nil =>
    obtain ⟨s, hs, _⟩ := h
    simp [specVersionSubsets] at hs
  | cons r rest ih =>
    obtain ⟨s, hs, hnone⟩ := h
    rw [specVersionSubsets_cons] at hs
    rw [rulesLoop_cons]
    rcases List.mem_append.mp hs with h1 | h2
    · rw [subsetsLoop_none cfg version _ acc ⟨s, h1, hnone⟩]
    · split
      · exact ih _ ⟨s, h2, hnone⟩
      · rfl

/-- The function `GetDestinationRulesSubsets` panics exactly when some qualifying subset declares no
string name. -/
theorem GetDestinationRulesSubsets_eq_none_iff (cfg : Config)
    (destinationRules : List IstioObject) (serviceName version : String) :
    GetDestinationRulesSubsets cfg destinationRules serviceName version = none ↔
      ∃ s ∈ specVersionSubsets cfg destinationRules serviceName version,
        specSubsetName s = none := by
  unfold GetDestinationRulesSubsets
  constructor
  · intro hnone
    by_contra hcon
    have hall : ∀ s ∈ specVersionSubsets cfg destinationRules serviceName version,
        ∃ n, specSubsetName s = some n := by
      intro s hs
      cases hn : specSubsetName s with
      | none => exact absurd ⟨s, hs, hn⟩ hcon
      | some n => exact ⟨n, rfl⟩
    rw [rulesLoop_eq cfg serviceName version destinationRules [] hall] at hnone
    cases hnone
  · exact rulesLoop_none cfg serviceName version destinationRules []

/-- C10, at a failing input: on a host-matching rule whose subset carries the label
`version=v1` and declares no name, `GetDestinationRulesSubsets` panics. -/
theorem GetDestinationRulesSubsets_unnamed_subset_panics :
    GetDestinationRulesSubsets sampleConfig [unnamedSubsetRule] "reviews" "v1" = none := by
  rfl

/-- An entry whose host list, port object or port protocol is absent or of another
type leaves the index as it was. -/
theorem serviceEntryStep_malformed (fmtV : Value → String) (acc : List String)
    (e : IstioObject)
    (h : (∀ hosts, specGet e.spec "hosts" ≠ some (.arr hosts)) ∨
      (∀ ports, specGet e.spec "ports" ≠ some (.obj ports)) ∨
      (∀ ports, specGet e.spec "ports" = some (.obj ports) →
        ∀ proto, mapGet ports "protocol" ≠ some (.str proto))) :
    serviceEntryStep fmtV acc e = acc := by
  unfold serviceEntryStep
  split
  · rename_i hosts hh
    split
    · rename_i ports hp
      split
      · rename_i proto hpr
        rcases h with h1 | h2 | h3
        · exact absurd hh (h1 hosts)
        · exact absurd hp (h2 ports)
        · exact absurd hpr (h3 ports hp proto)
      · rfl
    · rfl
  · rfl

/-- A service entry on a GRPC port whose host list holds the number 42 never leaves the
index empty, whatever text `%v` prints for the number. -/
theorem ServiceEntryHostnames_numeric_host_adds_key :
    ¬ ∃ fmtV : Value → String, ServiceEntryHostnames fmtV [numericHostEntry] = [] := by
  rintro ⟨fmtV, h⟩
  have hkey : ServiceEntryHostnames fmtV [numericHostEntry] = ["http" ++ fmtV (.num 42)] := rfl
  rw [hkey] at h
  cases h

/-- What `ServiceEntryHostnames` does with malformed data: an entry adds no key to the
index when its `hosts` is absent or not a list, when its `ports` is absent or not a
single object, or when the port's `protocol` is absent or not a string; but an element
of the host list that is not a string is not skipped, and the key made of the protocol
class and the text that `%v` prints for it is in the index. -/
theorem ServiceEntryHostnames_malformed_entry (fmtV : Value → String)
    (before after : List IstioObject) (e : IstioObject) :
    (((∀ hosts, specGet e.spec "hosts" ≠ some (.arr hosts)) ∨
        (∀ ports, specGet e.spec "ports" ≠ some (.obj ports)) ∨
        (∀ ports, specGet e.spec "ports" = some (.obj ports) →
          ∀ proto, mapGet ports "protocol" ≠ some (.str proto))) →
      ServiceEntryHostnames fmtV (before ++ e :: after) =
        ServiceEntryHostnames fmtV (before ++ after)) ∧
    (∀ hosts ports proto v, specGet e.spec "hosts" = some (.arr hosts) →
      specGet e.spec "ports" = some (.obj ports) →
      mapGet ports "protocol" = some (.str proto) → v ∈ hosts → (∀ s, v ≠ .str s) →
      mapPortToVirtualServiceProtocol proto ++ fmtV v ∈
        ServiceEntryHostnames fmtV (before ++ e :: after)) := by
  constructor
  · intro h
    unfold ServiceEntryHostnames
    rw [List.foldl_append, List.foldl_append, List.foldl_cons,
      serviceEntryStep_malformed fmtV _ e h]
  · intro hosts ports proto v hh hp hpr hv hns
    rw [mem_ServiceEntryHostnames_iff]
    refine ⟨e, by simp, hosts, ports, proto, hh, hp, hpr, v, hv, ?_⟩
    cases v with
    | str s => exact absurd rfl (hns s)
    | _ => rfl

/-- Malformed data on concrete entries: an entry without a port adds nothing, and the
number 42 in a host list adds the key `http42` when `%v` prints `42`. -/
theorem ServiceEntryHostnames_malformed_entry_witness :
    ServiceEntryHostnames (fun _ => "42") ([sampleServiceEntry] ++ portlessEntry :: []) =
        ServiceEntryHostnames (fun _ => "42") ([sampleServiceEntry] ++ []) ∧
      "http42" ∈ ServiceEntryHostnames (fun _ => "42") ([] ++ numericHostEntry :: []) :=
  ⟨(ServiceEntryHostnames_malformed_entry (fun _ => "42") [sampleServiceEntry] []
      portlessEntry).1 (Or.inr (Or.inl (fun ports hp => by cases hp))),
    (ServiceEntryHostnames_malformed_entry (fun _ => "42") [] [] numericHostEntry).2
      [.num 42] [("protocol", .str "GRPC")] "GRPC" (.num 42) rfl rfl rfl
      (List.mem_singleton.mpr rfl) (fun s hs => by cases hs)⟩

/-- C11, at two failing inputs: an element of the host list that is not a string is not
skipped. The entry on a GRPC port whose host list holds the number 42 gives the index
the key `http` followed by the text `%v` prints for 42, and the entry on a TLS port
whose host list holds a null gives the key `tls` followed by the text `%v` prints for
the null, where no key is due. -/
theorem ServiceEntryHostnames_non_string_host_key (fmtV : Value → String) :
    ServiceEntryHostnames fmtV [numericHostEntry] = ["http" ++ fmtV (.num 42)] ∧
      ServiceEntryHostnames fmtV [nullHostEntry] = ["tls" ++ fmtV .null] := by
  constructor <;> rfl

/-- C12: with the version label `version`, the rule for host `reviews` whose subset `v1`
has no traffic policy and whose subset `v2` has a traffic policy with
`outlierDetection`, and which has no service-level policy, has a circuit breaker for
version `v2` and none for version `v1`, whatever the identity domain. -/
theorem CheckDestinationRuleCircuitBreaker_reviews (identityDomain : String) :
    CheckDestinationRuleCircuitBreaker (Config.mk "version" identityDomain)
        (some sampleDestinationRule) "bookinfo" "reviews" "v2" = true ∧
      CheckDestinationRuleCircuitBreaker (Config.mk "version" identityDomain)
        (some sampleDestinationRule) "bookinfo" "reviews" "v1" = false := by
  constructor <;> rfl

/-- C14: `FilterByRoute` is false on the empty list of protocols, whatever the spec. -/
theorem FilterByRoute_no_protocols (lower : String → String) (cfg : Config) (spec : Spec)
    (service ns : String) (serviceEntries : Option (List String)) :
    FilterByRoute lower cfg spec [] service ns serviceEntries = false := by
  unfold FilterByRoute
  rfl

/-- C13: a destination rule whose service-level traffic policy, if any, and whose
subsets' traffic policies, if any, hold neither a `connectionPool` nor an
`outlierDetection` key has no circuit breaker, for every namespace, service name and
version. -/
theorem CheckDestinationRuleCircuitBreaker_no_policy (cfg : Config)
    (destinationRule : Option IstioObject) (ns serviceName version : String)
    (hservice : ∀ rule spec tp, destinationRule = some rule → rule.spec = some spec →
      mapGet spec "trafficPolicy" = some (.obj tp) →
      mapGet tp "connectionPool" = none ∧ mapGet tp "outlierDetection" = none)
    (hsubsets : ∀ rule spec subsets ms tp, destinationRule = some rule →
      rule.spec = some spec → mapGet spec "subsets" = some (.arr subsets) →
      Value.obj ms ∈ subsets → mapGet ms "trafficPolicy" = some (.obj tp) →
      mapGet tp "connectionPool" = none ∧ mapGet tp "outlierDetection" = none) :
    CheckDestinationRuleCircuitBreaker cfg destinationRule ns serviceName version = false := by
  cases hc : CheckDestinationRuleCircuitBreaker cfg destinationRule ns serviceName version with
  | false => rfl
  | true =>
    exfalso
    obtain ⟨rule, spec, host, hrule, hspec, _, _, hor⟩ :=
      (CheckDestinationRuleCircuitBreaker_eq_true_iff cfg destinationRule ns serviceName
        version).mp hc
    rcases hor with hp | ⟨_, subsets, hsub, s, hs, hsc⟩
    · obtain ⟨tp, htp, hkeys⟩ := (hasTrafficPolicy_iff spec).mp hp
      obtain ⟨h1, h2⟩ := hservice rule spec tp hrule hspec htp
      rw [h1, h2] at hkeys
      simp at hkeys
    · obtain ⟨ms, rfl, hp, _⟩ := (subsetCircuitBreaker_iff cfg version s).mp hsc
      obtain ⟨tp, htp, hkeys⟩ := (hasTrafficPolicy_iff ms).mp hp
      obtain ⟨h1, h2⟩ := hsubsets rule spec subsets ms tp hrule hspec hsub hs htp
      rw [h1, h2] at hkeys
      simp at hkeys

/-- The rule for `reviews` whose policies hold only a `loadBalancer` key meets the
hypotheses of C13 and has no circuit breaker for version `v1`. -/
theorem CheckDestinationRuleCircuitBreaker_no_policy_witness :
    CheckDestinationRuleCircuitBreaker sampleConfig (some loadBalancerRule) "bookinfo"
      "reviews" "v1" = false :=
  CheckDestinationRuleCircuitBreaker_no_policy sampleConfig (some loadBalancerRule)
    "bookinfo" "reviews" "v1"
    (by
      intro rule spec tp hrule hspec htp
      cases hrule
      have hs : loadBalancerRule.spec = some
          [("host", .str "reviews"),
            ("trafficPolicy", .obj [("loadBalancer", .obj [("simple", .str "RANDOM")])]),
            ("subsets", .arr
              [.obj [("name", .str "v1"), ("labels", .obj [("version", .str "v1")]),
                ("trafficPolicy",
                  .obj [("loadBalancer", .obj [("simple", .str "ROUND_ROBIN")])])]])] := rfl
      rw [hs] at hspec
      cases hspec
      have ht : mapGet
          [("host", .str "reviews"),
            ("trafficPolicy", .obj [("loadBalancer", .obj [("simple", .str "RANDOM")])]),
            ("subsets", .arr
              [.obj [("name", .str "v1"), ("labels", .obj [("version", .str "v1")]),
                ("trafficPolicy",
                  .obj [("loadBalancer", .obj [("simple", .str "ROUND_ROBIN")])])]])]
          "trafficPolicy" =
          some (.obj [("loadBalancer", .obj [("simple", .str "RANDOM")])]) := rfl
      rw [ht] at htp
      cases htp
      exact ⟨rfl, rfl⟩)
    (by
      intro rule spec subsets ms tp hrule hspec hsub hms htp
      cases hrule
      have hs : loadBalancerRule.spec = some
          [("host", .str "reviews"),
            ("trafficPolicy", .obj [("loadBalancer", .obj [("simple", .str "RANDOM")])]),
            ("subsets", .arr
              [.obj [("name", .str "v1"), ("labels", .obj [("version", .str "v1")]),
                ("trafficPolicy",
                  .obj [("loadBalancer", .obj [("simple", .str "ROUND_ROBIN")])])]])] := rfl
      rw [hs] at hspec
      cases hspec
      have ht : mapGet
          [("host", .str "reviews"),
            ("trafficPolicy", .obj [("loadBalancer", .obj [("simple", .str "RANDOM")])]),
            ("subsets", .arr
              [.obj [("name", .str "v1"), ("labels", .obj [("version", .str "v1")]),
                ("trafficPolicy",
                  .obj [("loadBalancer", .obj [("simple", .str "ROUND_ROBIN")])])]])]
          "subsets" =
          some (.arr
            [.obj [("name", .str "v1"), ("labels", .obj [("version", .str "v1")]),
              ("trafficPolicy",
                .obj [("loadBalancer", .obj [("simple", .str "ROUND_ROBIN")])])]]) := rfl
      rw [ht] at hsub
      cases hsub
      rw [List.mem_singleton] at hms
      cases hms
      have hp : mapGet
          [("name", .str "v1"), ("labels", .obj [("version", .str "v1")]),
            ("trafficPolicy", .obj [("loadBalancer", .obj [("simple", .str "ROUND_ROBIN")])])]
          "trafficPolicy" =
          some (.obj [("loadBalancer", .obj [("simple", .str "ROUND_ROBIN")])]) := rfl
      rw [hp] at htp
      cases htp
      exact ⟨rfl, rfl⟩)

/-- C15: `promQuery` submits exactly one query to the backend, the caller's expression
wrapped as `round(<expression>,0.001)`, at the caller's query time. On any backend,
the state it leaves is the state after that one call; on a backend that records what
it receives, the record grows by that one query and nothing else, whatever the answer
and also when the function panics. -/
theorem promQuery_submits_rounded {σ τ β : Type} (query : String) (queryTime : τ)
    (api : PromAPI σ τ β) (backend : β) :
    (promQuery query queryTime api backend).1 =
        (api.Query backend ("round(" ++ query ++ ",0.001)") queryTime).1 ∧
    (∀ (answer : String → τ → Option (ModelValue σ) × Option Error)
        (received : List (String × τ)),
      (promQuery query queryTime (recordingAPI answer) received).1 =
        received ++ [("round(" ++ query ++ ",0.001)", queryTime)]) := by
  constructor
  · rfl
  · intro answer received
    rfl

/-- C15 on a recording backend that has received nothing and answers with a vector: the
query `up` at time 7 leaves the record with the one query `round(up,0.001)` at time
7. -/
theorem promQuery_submits_rounded_witness :
    (promQuery "up" (7 : Nat)
        (recordingAPI fun _ _ => (some (ModelValue.vector [(1 : Nat)]), none)) []).1 =
      [("round(up,0.001)", 7)] :=
  ((promQuery_submits_rounded "up" (7 : Nat)
      (recordingAPI fun _ _ => (some (ModelValue.vector [(1 : Nat)]), none)) []).2
    (fun _ _ => (some (ModelValue.vector [(1 : Nat)]), none)) []).trans (by decide)

/-- C16: `promQuery` returns a vector exactly when the backend reported no error and
its value is that instant vector; on a transport error, and on a value of another
type, it panics, so it never returns an empty or nil vector in place of a failure. -/
theorem promQuery_result {σ τ β : Type} (query : String) (queryTime : τ)
    (api : PromAPI σ τ β) (backend : β) :
    (∀ v, (promQuery query queryTime api backend).2 = some v ↔
      (api.Query backend ("round(" ++ query ++ ",0.001)") queryTime).2 =
        (some (.vector v), none)) ∧
    (∀ e, (api.Query backend ("round(" ++ query ++ ",0.001)") queryTime).2.2 = some e →
      (promQuery query queryTime api backend).2 = none) ∧
    (∀ t, (api.Query backend ("round(" ++ query ++ ",0.001)") queryTime).2 = (some t, none) →
      (∀ v, t ≠ .vector v) → (promQuery query queryTime api backend).2 = none) := by
  unfold promQuery
  simp only
  generalize api.Query backend ("round(" ++ query ++ ",0.001)") queryTime = res
  obtain ⟨after, val, err⟩ := res
  cases err with
  | some e => simp [checkError]
  | none =>
    cases val with
    | none => simp [checkError]
    | some t => cases t <;> simp [checkError]

/-- The loop of `GetDestinationRules` appends, in order, the rules that the filter
keeps. -/
theorem destinationRulesLoop_eq (cfg : Config) (ns serviceName : String)
    (items acc : List IstioObject) :
    destinationRulesLoop cfg ns serviceName items acc =
      acc ++ items.filter (specKeepsDestinationRule cfg ns serviceName) := by
  induction items generalizing acc with
  | nil => simp [destinationRulesLoop]
  | cons r rest ih =>
    have hkeep : specKeepsDestinationRule cfg ns serviceName r =
        (match specGet r.spec "host" with
          | some (.str dHost) =>
            if FilterByHost cfg dHost serviceName ns = true then true
            else decide (serviceName = "")
          | _ => decide (serviceName = "")) := by
      unfold specKeepsDestinationRule
      split
      · rename_i dHost _
        by_cases hf : FilterByHost cfg dHost serviceName ns = true
        · simp [hf]
        · simp [hf]
      · simp
    rw [destinationRulesLoop, ← hkeep]
    by_cases hk : specKeepsDestinationRule cfg ns serviceName r = true
    · rw [if_pos hk, ih, List.filter_cons_of_pos hk]
      simp
    · rw [if_neg hk, ih, List.filter_cons_of_neg hk]

/-- The loop of `GetVirtualServices` appends, in order, the virtual services that the
filter keeps. -/
theorem virtualServicesLoop_eq (lower : String → String) (cfg : Config)
    (ns serviceName : String) (items acc : List IstioObject) :
    virtualServicesLoop lower cfg ns serviceName items acc =
      acc ++ items.filter (specKeepsVirtualService lower cfg ns serviceName) := by
  induction items generalizing acc with
  | nil => simp [virtualServicesLoop]
  | cons v rest ih =>
    have hkeep : specKeepsVirtualService lower cfg ns serviceName v =
        (if (!decide (serviceName = "") &&
            FilterByRoute lower cfg v.spec ["http", "tcp"] serviceName ns none) = true
          then true
          else decide (serviceName = "")) := by
      unfold specKeepsVirtualService
      by_cases hs : serviceName = ""
      · simp [hs]
      · by_cases hf : FilterByRoute lower cfg v.spec ["http", "tcp"] serviceName ns none = true
        · simp [hs, hf]
        · simp [hs, hf]
    rw [virtualServicesLoop, ← hkeep]
    by_cases hk : specKeepsVirtualService lower cfg ns serviceName v = true
    · rw [if_pos hk, ih, List.filter_cons_of_pos hk]
      simp
    · rw [if_neg hk, ih, List.filter_cons_of_neg hk]

/-- C17: when the list request returns the destination rules `L`, `GetDestinationRules`
returns no error and, in the order of `L`, exactly the rules for which the service
name is empty or the `host` of the spec is a string matching the service name and the
namespace under `FilterByHost`; so an empty service name returns all of `L`. -/
theorem GetDestinationRules_filter (cfg : Config) (client : IstioClient)
    (ns serviceName : String) (L : List IstioObject)
    (hlist : client.listDestinationRules ns = .ok (.destinationRuleList L)) :
    GetDestinationRules cfg client ns serviceName =
        (L.filter (specKeepsDestinationRule cfg ns serviceName), none) ∧
    (∀ r, specKeepsDestinationRule cfg ns serviceName r = true ↔
      (serviceName = "" ∨ ∃ host, specGet r.spec "host" = some (.str host) ∧
        FilterByHost cfg host serviceName ns = true)) ∧
    (serviceName = "" → GetDestinationRules cfg client ns serviceName = (L, none)) := by
  have hres : GetDestinationRules cfg client ns serviceName =
      (L.filter (specKeepsDestinationRule cfg ns serviceName), none) := by
    unfold GetDestinationRules
    rw [hlist]
    simp only [destinationRulesLoop_eq, List.nil_append]
  refine ⟨hres, ?_, ?_⟩
  · intro r
    unfold specKeepsDestinationRule
    constructor
    · intro h
      by_cases hs : serviceName = ""
      · exact Or.inl hs
      · right
        simp only [hs, decide_False, Bool.false_or] at h
        split at h
        · rename_i host hhost
          exact ⟨host, hhost, h⟩
        · cases h
    · rintro (hs | ⟨host, hhost, hf⟩)
      · simp [hs]
      · simp [hhost, hf]
  · intro hs
    rw [hres]
    have hall : ∀ r ∈ L, specKeepsDestinationRule cfg ns serviceName r = true := by
      intro r _
      simp [specKeepsDestinationRule, hs]
    rw [List.filter_eq_self.mpr hall]

/-- C17 on a client returning the rules for `reviews`, for `ratings` and one without a
host: for the service `reviews` only the first is returned. -/
theorem GetDestinationRules_filter_witness :
    sampleClient.listDestinationRules "bookinfo" = .ok (.destinationRuleList
        [sampleDestinationRule, ratingsDestinationRule, hostlessDestinationRule]) ∧
      GetDestinationRules sampleConfig sampleClient "bookinfo" "reviews" =
        ([sampleDestinationRule], none) :=
  ⟨rfl, (GetDestinationRules_filter sampleConfig sampleClient "bookinfo" "reviews"
    [sampleDestinationRule, ratingsDestinationRule, hostlessDestinationRule] rfl).1.trans rfl⟩

/-- C18: when the list request returns the virtual services `L`, `GetVirtualServices`
returns no error and, in the order of `L`, exactly the virtual services for which the
service name is empty or `FilterByRoute` holds of the spec with the protocols `http`
and `tcp`, the service name, the namespace and no external hosts; so an empty service
name returns all of `L`. -/
theorem GetVirtualServices_filter (lower : String → String) (cfg : Config)
    (client : IstioClient) (ns serviceName : String) (L : List IstioObject)
    (hlist : client.listVirtualServices ns = .ok (.virtualServiceList L)) :
    GetVirtualServices lower cfg client ns serviceName =
        (L.filter (specKeepsVirtualService lower cfg ns serviceName), none) ∧
    (∀ v, specKeepsVirtualService lower cfg ns serviceName v = true ↔
      (serviceName = "" ∨
        FilterByRoute lower cfg v.spec ["http", "tcp"] serviceName ns none = true)) ∧
    (serviceName = "" → GetVirtualServices lower cfg client ns serviceName = (L, none)) := by
  have hres : GetVirtualServices lower cfg client ns serviceName =
      (L.filter (specKeepsVirtualService lower cfg ns serviceName), none) := by
    unfold GetVirtualServices
    rw [hlist]
    simp only [virtualServicesLoop_eq, List.nil_append]
  refine ⟨hres, ?_, ?_⟩
  · intro v
    unfold specKeepsVirtualService
    simp
  · intro hs
    rw [hres]
    have hall : ∀ v ∈ L, specKeepsVirtualService lower cfg ns serviceName v = true := by
      intro v _
      simp [specKeepsVirtualService, hs]
    rw [List.filter_eq_self.mpr hall]

/-- C18 on a client returning the virtual services for `reviews` and for `ratings`: for
the service `reviews` only the first is returned. -/
theorem GetVirtualServices_filter_witness :
    sampleClient.listVirtualServices "bookinfo" = .ok (.virtualServiceList
        [sampleVirtualService, ratingsVirtualService]) ∧
      GetVirtualServices id sampleConfig sampleClient "bookinfo" "reviews" =
        ([sampleVirtualService], none) :=
  ⟨rfl, (GetVirtualServices_filter id sampleConfig sampleClient "bookinfo" "reviews"
    [sampleVirtualService, ratingsVirtualService] rfl).1.trans rfl⟩

/-- The loop over hosts that are all strings returns whether one of them matches. -/
theorem hostsLoop_strings (cfg : Config) (ns serviceName : String) (hs : List String) :
    hostsLoop cfg ns serviceName (hs.map Value.str) =
      some (hs.any fun h => FilterByHost cfg h serviceName ns) := by
  induction hs with
  | nil => rfl
  | cons h rest ih =>
    rw [List.map_cons, hostsLoop, List.any_cons]
    by_cases hf : FilterByHost cfg h serviceName ns = true
    · simp [hf]
    · simp [hf, ih]

/-- The function `CheckVirtualService` panics whenever the virtual service has a spec,
the service name is not empty, and `hosts` is present and is not a list. -/
theorem CheckVirtualService_hosts_not_list (cfg : Config) (vs : IstioObject) (spec : Obj)
    (ns serviceName : String) (v : Value) (hspec : vs.spec = some spec)
    (hname : serviceName ≠ "") (hhosts : mapGet spec "hosts" = some v)
    (hv : ∀ l, v ≠ .arr l) :
    CheckVirtualService cfg (some vs) ns serviceName = none := by
  unfold CheckVirtualService
  cases v with
  | arr l => exact absurd rfl (hv l)
  | _ => simp only [hspec, if_neg hname, hhosts]

/-- C19, at two failing inputs: `CheckVirtualService` panics, and does not return
false, on a virtual service whose `hosts` is a string and on one whose host list holds
a number. -/
theorem CheckVirtualService_malformed_hosts_panic :
    CheckVirtualService sampleConfig (some stringHostsVirtualService) "bookinfo" "reviews" =
        none ∧
      CheckVirtualService sampleConfig (some numericHostsVirtualService) "bookinfo"
        "reviews" = none := by
  constructor <;> rfl

/-- C20: when `FilterByRouteAndSubset` is true of a spec, the protocols, the service, the
namespace and some subset names, `FilterByRoute` is true of the same spec, protocols,
service and namespace, with or without external hosts. -/
theorem FilterByRoute_of_FilterByRouteAndSubset (lower : String → String) (cfg : Config)
    (spec : Spec) (protocols : List String) (service ns : String) (subsets : List String)
    (serviceEntries : Option (List String))
    (h : FilterByRouteAndSubset cfg spec protocols service ns subsets = true) :
    FilterByRoute lower cfg spec protocols service ns serviceEntries = true := by
  obtain ⟨p, hp, routes, hroutes, r, hr, hrr⟩ :=
    (FilterByRouteAndSubset_eq_true_iff cfg spec protocols service ns subsets).mp h
  obtain ⟨mr, dws, hmr, hdws, d, hd, hdd⟩ :=
    (httpRouteSubsetRouted_iff cfg service ns subsets r).mp hrr
  obtain ⟨md, dw, host, sub, hmd, hdw, hhost, hf, _, _⟩ :=
    (destinationSubsetRouted_iff cfg service ns subsets d).mp hdd
  refine (FilterByRoute_eq_true_iff lower cfg spec protocols service ns serviceEntries).mpr
    ⟨p, hp, routes, hroutes, r, hr, ?_⟩
  refine (httpRouteRouted_iff lower cfg p service ns serviceEntries r).mpr
    ⟨mr, dws, hmr, hdws, d, hd, ?_⟩
  exact (destinationRouted_iff lower cfg p service ns serviceEntries d).mpr
    ⟨md, dw, host, hmd, hdw, hhost, Or.inl hf⟩

/-- C20 on the virtual service routing to the subset `v1` of `reviews`: the subset test
holds, and so does the host test. -/
theorem FilterByRoute_of_FilterByRouteAndSubset_witness :
    FilterByRouteAndSubset sampleConfig sampleVirtualService.spec ["http", "tcp"] "reviews"
        "bookinfo" ["v1"] = true ∧
      FilterByRoute id sampleConfig sampleVirtualService.spec ["http", "tcp"] "reviews"
        "bookinfo" none = true :=
  ⟨rfl, FilterByRoute_of_FilterByRouteAndSubset id sampleConfig sampleVirtualService.spec
    ["http", "tcp"] "reviews" "bookinfo" ["v1"] none rfl⟩

/-- The test `v, ok := m[k]; ok && v != s` fails exactly when the key is absent or its
value is the string. -/
theorem fieldDiffers_eq_false_iff (m : Obj) (key s : String) :
    (match mapGet m key with
      | some v => !valueEqString v s
      | none => false) = false ↔
      (mapGet m key = none ∨ mapGet m key = some (.str s)) := by
  cases hk : mapGet m key with
  | none => simp
  | some v =>
    simp only [Bool.not_eq_false_eq_eq_true, Bool.not_eq_false, valueEqString_iff, false_or,
      Option.some.injEq, reduceCtorEq]

/-- The label test of `FilterByDestination`, once the destination has labels. -/
theorem destinationLabels_iff (cfg : Config) (version : String) (dLabels : Value) :
    (if version ≠ "" then
        match dLabels with
        | .obj labels =>
          match mapGet labels cfg.versionLabelName with
          | some versionValue => if valueEqString versionValue version = true then true else false
          | none => false
        | _ => false
      else true) = true ↔
      (version = "" ∨ ∃ labels, dLabels = .obj labels ∧
        mapGet labels cfg.versionLabelName = some (.str version)) := by
  by_cases hv : version = ""
  · simp [hv]
  · rw [if_pos hv]
    constructor
    · intro h
      right
      split at h
      · rename_i labels
        split at h
        · rename_i versionValue hvv
          by_cases he : valueEqString versionValue version = true
          · exact ⟨labels, rfl, by rw [hvv, (valueEqString_iff _ _).mp he]⟩
          · rw [if_neg he] at h
            cases h
        · cases h
      · cases h
    · rintro (h | ⟨labels, rfl, hl⟩)
      · exact absurd h hv
      · simp only [hl]
        rw [if_pos ((valueEqString_iff _ _).mpr rfl)]

/-- C22: `FilterByDestination` is true exactly when the spec has a `destination` that is
an object whose `namespace` is absent or is the namespace, whose `name` is absent or is
the service name, and which has no `labels`, or the version is empty, or its `labels`
is an object mapping the version label to the version. It is false in every other
case: a nil spec, a `destination` absent or not an object, and labels present with a
non-empty version that are not an object or do not carry the version. -/
theorem FilterByDestination_iff (cfg : Config) (spec : Spec) (ns serviceName version : String) :
    FilterByDestination cfg spec ns serviceName version = true ↔
      ∃ m d, spec = some m ∧ mapGet m "destination" = some (.obj d) ∧
        (mapGet d "namespace" = none ∨ mapGet d "namespace" = some (.str ns)) ∧
        (mapGet d "name" = none ∨ mapGet d "name" = some (.str serviceName)) ∧
        (mapGet d "labels" = none ∨ version = "" ∨
          ∃ labels, mapGet d "labels" = some (.obj labels) ∧
            mapGet labels cfg.versionLabelName = some (.str version)) := by
  unfold FilterByDestination
  constructor
  · intro h
    split at h
    · cases h
    · rename_i m
      split at h
      · rename_i destination hdest
        split at h
        · rename_i d
          split at h
          · cases h
          · rename_i hA
            split at h
            · cases h
            · rename_i hB
              refine ⟨m, d, rfl, hdest,
                (fieldDiffers_eq_false_iff d "namespace" ns).mp (Bool.not_eq_true _ ▸ hA),
                (fieldDiffers_eq_false_iff d "name" serviceName).mp (Bool.not_eq_true _ ▸ hB),
                ?_⟩
              split at h
              · rename_i dLabels hl
                rcases (destinationLabels_iff cfg version dLabels).mp h with hv | ⟨labels, rfl, hk⟩
                · exact Or.inr (Or.inl hv)
                · exact Or.inr (Or.inr ⟨labels, hl, hk⟩)
              · rename_i hl
                exact Or.inl hl
        · cases h
      · cases h
  · rintro ⟨m, d, rfl, hdest, hns, hname, hlabels⟩
    have hA := (fieldDiffers_eq_false_iff d "namespace" ns).mpr hns
    have hB := (fieldDiffers_eq_false_iff d "name" serviceName).mpr hname
    simp only [hdest]
    rw [hA, hB]
    simp only [Bool.false_eq_true, if_false]
    rcases hlabels with hl | hv | ⟨labels, hl, hk⟩
    · simp only [hl]
    · cases hl : mapGet d "labels" with
      | none => rfl
      | some dLabels => exact (destinationLabels_iff cfg version dLabels).mpr (Or.inl hv)
    · simp only [hl]
      exact (destinationLabels_iff cfg version (.obj labels)).mpr (Or.inr ⟨labels, rfl, hk⟩)

/-- C22 on the spec whose destination names `reviews` in `bookinfo` with the label
`version=v1`: the destination passes for that service and version. -/
theorem FilterByDestination_iff_witness :
    FilterByDestination sampleConfig sampleDestinationSpec "bookinfo" "reviews" "v1" = true :=
  (FilterByDestination_iff sampleConfig sampleDestinationSpec "bookinfo" "reviews" "v1").mpr
    ⟨[("destination", .obj [("namespace", .str "bookinfo"), ("name", .str "reviews"),
        ("labels", .obj [("version", .str "v1")])])],
      [("namespace", .str "bookinfo"), ("name", .str "reviews"),
        ("labels", .obj [("version", .str "v1")])],
      rfl, rfl, Or.inr rfl, Or.inr rfl,
      Or.inr (Or.inr ⟨[("version", .str "v1")], rfl, rfl⟩)⟩

/-- C21: the index of external hosts and `FilterByRoute` agree on the key. When a
service entry has the string `h` among its hosts and a port whose protocol maps to the
class `c`, when `c` is one of the protocols, and when the spec has under `c` a route
with a destination whose host is `h`, `FilterByRoute` with the index of the entries is
true for every service and namespace, whether or not `h` names the service.
`strings.ToLower` leaves the three class names as they are. -/
theorem FilterByRoute_of_service_entry (lower : String → String) (fmtV : Value → String)
    (cfg : Config) (entries : List IstioObject) (spec : Spec) (protocols : List String)
    (service ns : String) (e : IstioObject) (hosts : List Value) (ports : Obj)
    (proto h : String) (routes dws : List Value) (mr md dw : Obj)
    (hlower : lower "http" = "http" ∧ lower "tls" = "tls" ∧ lower "tcp" = "tcp")
    (he : e ∈ entries)
    (hhosts : specGet e.spec "hosts" = some (.arr hosts))
    (hh : Value.str h ∈ hosts)
    (hports : specGet e.spec "ports" = some (.obj ports))
    (hproto : mapGet ports "protocol" = some (.str proto))
    (hc : mapPortToVirtualServiceProtocol proto ∈ protocols)
    (hroutes : specGet spec (mapPortToVirtualServiceProtocol proto) = some (.arr routes))
    (hr : Value.obj mr ∈ routes)
    (hroute : mapGet mr "route" = some (.arr dws))
    (hd : Value.obj md ∈ dws)
    (hdest : mapGet md "destination" = some (.obj dw))
    (hhost : mapGet dw "host" = some (.str h)) :
    FilterByRoute lower cfg spec protocols service ns
      (some (ServiceEntryHostnames fmtV entries)) = true := by
  have hfix : lower (mapPortToVirtualServiceProtocol proto) =
      mapPortToVirtualServiceProtocol proto := by
    rcases mapPortToVirtualServiceProtocol_mem proto with hc1 | hc1 | hc1
    · rw [hc1]; exact hlower.1
    · rw [hc1]; exact hlower.2.1
    · rw [hc1]; exact hlower.2.2
  have hkey : lower (mapPortToVirtualServiceProtocol proto) ++ h ∈
      ServiceEntryHostnames fmtV entries := by
    rw [hfix, mem_ServiceEntryHostnames_iff]
    exact ⟨e, he, hosts, ports, proto, hhosts, hports, hproto, Value.str h, hh, rfl⟩
  refine (FilterByRoute_eq_true_iff lower cfg spec protocols service ns _).mpr
    ⟨mapPortToVirtualServiceProtocol proto, hc, routes, hroutes, Value.obj mr, hr, ?_⟩
  refine (httpRouteRouted_iff lower cfg _ service ns _ _).mpr
    ⟨mr, dws, rfl, hroute, Value.obj md, hd, ?_⟩
  exact (destinationRouted_iff lower cfg _ service ns _ _).mpr
    ⟨md, dw, h, rfl, hdest, hhost, Or.inr ⟨_, rfl, hkey⟩⟩

/-- C21 on the service entry for `api.example.com` on a GRPC port and the virtual
service routing HTTP traffic to that host: the route is found for the service
`reviews` in `bookinfo`, whose name the host does not match. -/
theorem FilterByRoute_of_service_entry_witness :
    FilterByRoute asciiLower sampleConfig externalVirtualService.spec ["http", "tcp"]
        "reviews" "bookinfo"
        (some (ServiceEntryHostnames (fun _ => "") [sampleServiceEntry])) = true ∧
      FilterByHost sampleConfig "api.example.com" "reviews" "bookinfo" = false :=
  ⟨FilterByRoute_of_service_entry asciiLower (fun _ => "") sampleConfig
      [sampleServiceEntry] externalVirtualService.spec ["http", "tcp"] "reviews" "bookinfo"
      sampleServiceEntry [.str "api.example.com"]
      [("number", .num 443), ("protocol", .str "GRPC")] "GRPC" "api.example.com"
      [.obj [("route", .arr
        [.obj [("destination", .obj [("host", .str "api.example.com")])]])]]
      [.obj [("destination", .obj [("host", .str "api.example.com")])]]
      [("route", .arr [.obj [("destination", .obj [("host", .str "api.example.com")])]])]
      [("destination", .obj [("host", .str "api.example.com")])]
      [("host", .str "api.example.com")]
      ⟨by decide, by decide, by decide⟩
      (List.mem_singleton.mpr rfl) rfl (List.mem_singleton.mpr rfl) rfl rfl
      (by decide) rfl (List.mem_singleton.mpr rfl) rfl (List.mem_singleton.mpr rfl) rfl rfl,
    by decide⟩

end Kiali
